import Mathlib

/-!
A growable `int` buffer: `DynamicArray.cpp`

Shallow embedding of `src/DynamicArray.cpp` / `src/dynamicarray.h`.

Modelling conventions.

* `size_t` is a natural number below `2 ^ 64`; every `size_t` computation of the
  source that can wrap is written with an explicit `wrapSize`.
* `int` is the 32-bit signed type: `sizeof(int) = 4`, `INT_MAX = 2 ^ 31 - 1`.
  Values stored in the buffer are carried as `Int`; the only arithmetic on them
  is done after conversion to `float`.  The `int` loop counters of the source
  are naturals with an explicit check where `++` would pass `INT_MAX`.
* `float` is IEEE 754 binary32 with round to nearest, ties to even.  The
  statistics functions are written over a `FloatModel`; `binary32` is the model
  of the C type, with float values carried as the rationals they denote.
* A pointer to `int` is `Option (List Int)`: `none` is `NULL`, `some blk` is a
  heap block holding `blk.length` ints.  A pointer to the struct is
  `Option DynamicArray`.
* The allocator is an input: every call of `malloc`/`realloc` gets a `Reply`
  saying whether the request is granted and what the fresh memory holds.
* Behaviour the C standard leaves undefined (access through `NULL`, access
  outside the block, signed overflow) is the explicit result `Except.error`.
* The file read by the loader is the list of strings the successive `fgets`
  calls return; `strtok` is embedded for the delimiter `","`; `atoi` is an
  input of the loader.
-/

namespace DynArr

/-- Largest value of `size_t`. -/
def SIZE_MAX : Nat := 2 ^ 64 - 1

/-- Largest value of `int`. -/
def INT_MAX : Nat := 2 ^ 31 - 1

/-- The value of `sizeof(int)`. -/
def sizeofInt : Nat := 4

/-- Reduction of a natural number to the range of `size_t`. -/
def wrapSize (n : Nat) : Nat := n % (SIZE_MAX + 1)

/-- Undefined behaviour of the C program, made explicit. -/
inductive Fault where
  | nullDeref
  | outOfBlock
  | signedOverflow
  deriving DecidableEq, Repr

deriving instance DecidableEq for Except

/-- The struct of `dynamicarray.h`. -/
structure DynamicArray where
  data : Option (List Int)
  capacity : Nat
  size : Nat
  deriving DecidableEq, Repr

/-- Answer of the allocator to one request: `none` is `NULL`, `some junk` grants
the block, every fresh slot of which reads as `junk`. -/
abbrev Reply := Option Int

/-- The call `realloc(old, bytes)`: on success a block of `bytes / sizeof(int)`
ints that keeps the old contents up to the smaller of the two sizes. -/
def realloc (reply : Reply) (old : Option (List Int)) (bytes : Nat) : Option (List Int) :=
  match reply with
  | none => none
  | some junk =>
    let kept := (old.getD []).take (bytes / sizeofInt)
    some (kept ++ List.replicate (bytes / sizeofInt - kept.length) junk)

/-- The read `data[index]`. -/
def readSlot (data : Option (List Int)) (index : Nat) : Except Fault Int :=
  match data with
  | none => .error .nullDeref
  | some blk =>
    match blk[index]? with
    | some v => .ok v
    | none => .error .outOfBlock

/-- The write `data[index] = value`. -/
def writeSlot (data : Option (List Int)) (index : Nat) (value : Int) :
    Except Fault (List Int) :=
  match data with
  | none => .error .nullDeref
  | some blk =>
    if index < blk.length then .ok (blk.set index value) else .error .outOfBlock

/-- Source lines 24-45: `static int resize(DynamicArray* array, size_t newcap)`. -/
def resize (reply : Reply) (array : DynamicArray) (newcap : Nat) : Int × DynamicArray :=
  let newdata := realloc reply array.data (wrapSize (newcap * sizeofInt))
  if newdata = none ∧ newcap > 0 then
    (0, array)
  else
    let array1 := { array with data := newdata, capacity := newcap }
    if array1.size > newcap then
      (1, { array1 with size := newcap })
    else
      (1, array1)

/-- Source lines 47-74: `dynamic_array_create`.  `structReply` answers the
`malloc` of the struct, `storeReply` the `realloc` made by `resize`. -/
def dynamic_array_create (structReply storeReply : Reply) (initial_cap : Nat) :
    Option DynamicArray :=
  match structReply with
  | none => none
  | some _ =>
    let array : DynamicArray := { data := none, capacity := 0, size := 0 }
    if initial_cap > 0 then
      let r := resize storeReply array initial_cap
      if r.1 = 0 then none else some r.2
    else
      some array

/-- Source lines 97-99: `array->data[array->size] = value; array->size++; return 1;`. -/
def storeAtEnd (array : DynamicArray) (value : Int) :
    Except Fault (Int × Option DynamicArray) :=
  match writeSlot array.data array.size value with
  | .error e => .error e
  | .ok blk => .ok (1, some { array with data := some blk, size := wrapSize (array.size + 1) })

/-- Source lines 76-100: `dynamic_array_append`.  `reply` answers the `realloc`
of the growth step, if that step is taken. -/
def dynamic_array_append (reply : Reply) (array : Option DynamicArray) (value : Int) :
    Except Fault (Int × Option DynamicArray) :=
  match array with
  | none => .ok (0, none)
  | some array =>
    if array.size = array.capacity then
      let newcap := if array.capacity = 0 then 1 else wrapSize (array.capacity * 2)
      let r := resize reply array newcap
      if r.1 = 0 then .ok (0, some r.2) else storeAtEnd r.2 value
    else
      storeAtEnd array value

/-- Source lines 102-113: `dynamic_array_get`. -/
def dynamic_array_get (array : Option DynamicArray) (index : Nat) : Except Fault Int :=
  match array with
  | none => .ok 0
  | some array => readSlot array.data index

/-- Source lines 115-126: `dynamic_array_set`. -/
def dynamic_array_set (array : Option DynamicArray) (index : Nat) (value : Int) :
    Except Fault (Int × Option DynamicArray) :=
  match array with
  | none => .ok (0, none)
  | some array =>
    if array.size ≤ index then
      .ok (0, some array)
    else
      match writeSlot array.data index value with
      | .error e => .error e
      | .ok blk => .ok (1, some { array with data := some blk })

/-- Source lines 147-156: `dynamic_array_size`. -/
def dynamic_array_size (array : Option DynamicArray) : Nat :=
  match array with
  | none => 0
  | some array => array.size

/-- Source lines 158-167: `dynamic_array_capacity`. -/
def dynamic_array_capacity (array : Option DynamicArray) : Nat :=
  match array with
  | none => 0
  | some array => array.capacity

/-- A run of appends, one per value, in order.  The k-th append is answered by
the k-th reply (by `NULL` once the replies are used up).  Returns the return
codes in order and the final buffer. -/
def appendAll : List Reply → Option DynamicArray → List Int →
    Except Fault (List Int × Option DynamicArray)
  | _, array, [] => .ok ([], array)
  | replies, array, v :: vs =>
    match dynamic_array_append (replies.headD none) array v with
    | .error e => .error e
    | .ok (rc, array1) =>
      match appendAll replies.tail array1 vs with
      | .error e => .error e
      | .ok (rcs, array2) => .ok (rc :: rcs, array2)

/-- The increment `n++` of an `int` variable holding `n ≥ 0`: undefined once the
result would pass `INT_MAX`. -/
def intIncr (n : Nat) : Except Fault Nat :=
  if n + 1 > INT_MAX then .error .signedOverflow else .ok (n + 1)

/-- Source lines 279-284, the counting loop of `detect_crit_no2`:
`for (int i = 0; i < array->size; i++) if (array->data[i] > 20) counter++;`.
`array->size` is not written in the loop, so the body runs `size - i` more
times: `todo` is that number, `i` and `counter` are the two `int` variables. -/
def countCrit (data : Option (List Int)) : Nat → Nat → Nat → Except Fault Nat
  | 0, _, counter => .ok counter
  | todo + 1, i, counter =>
    match readSlot data i with
    | .error e => .error e
    | .ok x =>
      match (if x > 20 then intIncr counter else .ok counter) with
      | .error e => .error e
      | .ok counter1 =>
        match intIncr i with
        | .error e => .error e
        | .ok i1 => countCrit data todo i1 counter1

/-- Source lines 304-311, the filling loop of `detect_crit_no2`:
`if (array->data[i] > 20) { crit_array->data[cnt] = array->data[i]; cnt++; crit_array->size++; }`
for `i` from 0 while `i < array->size`; `todo` as in `countCrit`. -/
def fillCrit (data : Option (List Int)) :
    Nat → Nat → Nat → DynamicArray → Except Fault DynamicArray
  | 0, _, _, crit => .ok crit
  | todo + 1, i, cnt, crit =>
    match readSlot data i with
    | .error e => .error e
    | .ok x =>
      if x > 20 then
        match writeSlot crit.data cnt x with
        | .error e => .error e
        | .ok blk =>
          match intIncr cnt with
          | .error e => .error e
          | .ok cnt1 =>
            match intIncr i with
            | .error e => .error e
            | .ok i1 =>
              fillCrit data todo i1 cnt1
                { crit with data := some blk, size := wrapSize (crit.size + 1) }
      else
        match intIncr i with
        | .error e => .error e
        | .ok i1 => fillCrit data todo i1 cnt crit

/-- Source lines 272-315: `detect_crit_no2`.  `structReply` answers the `malloc`
of the new struct, `storeReply` the `realloc` made by `resize`.  The function
only reads through `array`; the buffer it returns owns a block of its own. -/
def detect_crit_no2 (structReply storeReply : Reply) (array : Option DynamicArray) :
    Except Fault (Option DynamicArray) :=
  match array with
  | none => .ok none
  | some array =>
    if array.size = 0 then
      .ok none
    else
      match countCrit array.data array.size 0 0 with
      | .error e => .error e
      | .ok counter =>
        match structReply with
        | none => .ok none
        | some _ =>
          let crit_array : DynamicArray := { data := none, capacity := 0, size := 0 }
          let r := resize storeReply crit_array counter
          if r.1 = 0 then
            .ok none
          else
            match fillCrit array.data array.size 0 0 r.2 with
            | .error e => .error e
            | .ok crit_array1 => .ok (some crit_array1)

/-- The `float` arithmetic used by the statistics functions, as operations on
a type `F` of float values: conversion of an `int` (the literals `0`, `0.0`,
`0.0f` and `30.0` are the floats of the integers 0 and 30), conversion of a
`size_t`, addition and division.  Comparison is the order of `F`. -/
structure FloatModel (F : Type) where
  ofInt : Int → F
  ofSize : Nat → F
  add : F → F → F
  div : F → F → F

/-- Rounding of a rational to the nearest integer, ties to the even one. -/
def roundHalfEven (x : ℚ) : ℤ :=
  if Int.fract x < 1 / 2 then ⌊x⌋
  else if 1 / 2 < Int.fract x then ⌊x⌋ + 1
  else if ⌊x⌋ % 2 = 0 then ⌊x⌋
  else ⌊x⌋ + 1

/-- The unit in the last place of binary32 at a nonzero rational `q`: 2 to the
power `e - 23`, with `e` the binary exponent of `q`, not below the exponent
-126 of the subnormal range. -/
def ulpBinary32 (q : ℚ) : ℚ := 2 ^ (max (Int.log 2 |q|) (-126) - 23)

/-- Rounding of a rational to IEEE 754 binary32, round to nearest, ties to
even: 24 significant bits, subnormals below `2 ^ (-126)`.  Overflow to infinity
(magnitudes from `2 ^ 128`) is not represented; no operation of the embedded
functions on `int` and `size_t` operands reaches it. -/
def roundBinary32 (q : ℚ) : ℚ :=
  if q = 0 then 0
  else (if q < 0 then -1 else 1) * ((roundHalfEven (|q| / ulpBinary32 q) : ℤ) : ℚ) * ulpBinary32 q

/-- The C type `float` as binary32: every conversion and every operation
rounds its exact result.  A division by zero does not occur in the embedded
functions (the only divisor is the float of a non-zero `size`, which is at
least 1); here it gives 0. -/
def binary32 : FloatModel ℚ where
  ofInt := fun x => roundBinary32 (x : ℚ)
  ofSize := fun n => roundBinary32 (n : ℚ)
  add := fun a b => roundBinary32 (a + b)
  div := fun a b => roundBinary32 (a / b)

/-- The loop `for (int i = 0; i < array->size; i++) acc = body(acc, array->data[i]);`
shared by `avg_no2`, `max_no2` and `min_no2`; `todo` is the number of rounds
still to run, `i` the `int` loop variable. -/
def forEachInt {α : Type} (data : Option (List Int)) (body : α → Int → α) :
    Nat → Nat → α → Except Fault α
  | 0, _, acc => .ok acc
  | todo + 1, i, acc =>
    match readSlot data i with
    | .error e => .error e
    | .ok x =>
      match intIncr i with
      | .error e => .error e
      | .ok i1 => forEachInt data body todo i1 (body acc x)

/-- Source lines 218-234: `avg_no2`. -/
def avg_no2 {F : Type} (fm : FloatModel F) (array : Option DynamicArray) : Except Fault F :=
  match array with
  | none => .ok (fm.ofInt 0)
  | some array =>
    if array.size = 0 then
      .ok (fm.ofInt 0)
    else
      match forEachInt array.data (fun gesamt x => fm.add gesamt (fm.ofInt x))
          array.size 0 (fm.ofInt 0) with
      | .error e => .error e
      | .ok gesamt => .ok (fm.div gesamt (fm.ofSize array.size))

/-- Source lines 236-252: `max_no2`. -/
def max_no2 {F : Type} [LinearOrder F] (fm : FloatModel F) (array : Option DynamicArray) :
    Except Fault F :=
  match array with
  | none => .ok (fm.ofInt 0)
  | some array =>
    if array.size = 0 then
      .ok (fm.ofInt 0)
    else
      forEachInt array.data (fun max x => if fm.ofInt x > max then fm.ofInt x else max)
        array.size 0 (fm.ofInt 0)

/-- Source lines 254-270: `min_no2`. -/
def min_no2 {F : Type} [LinearOrder F] (fm : FloatModel F) (array : Option DynamicArray) :
    Except Fault F :=
  match array with
  | none => .ok (fm.ofInt 0)
  | some array =>
    if array.size = 0 then
      .ok (fm.ofInt 0)
    else
      forEachInt array.data (fun min x => if fm.ofInt x < min then fm.ofInt x else min)
        array.size 0 (fm.ofInt 30)

/-- The sizes at which the appends of a run triggered growth, in order.  An
append that hands the buffer back with another capacity than it found has gone
through `resize`, and the reallocation carried over the `size` elements stored
at that moment. -/
def growthSizes : List Reply → Option DynamicArray → List Int → Except Fault (List Nat)
  | _, _, [] => .ok []
  | replies, array, v :: vs =>
    match dynamic_array_append (replies.headD none) array v with
    | .error e => .error e
    | .ok (_, array1) =>
      match growthSizes replies.tail array1 vs with
      | .error e => .error e
      | .ok rest =>
        if dynamic_array_capacity array1 ≠ dynamic_array_capacity array then
          .ok (dynamic_array_size array :: rest)
        else
          .ok rest

/-- The capacity reached from the empty buffer by `n` appends: 0 for `n = 0`,
otherwise 2 to the power ceil(log2 n). -/
def capShape (n : Nat) : Nat := if n = 0 then 0 else 2 ^ Nat.clog 2 n

/-- The block a buffer points to, read as a list (`NULL` has no slots). -/
def store (array : DynamicArray) : List Int := array.data.getD []

/-- The logical contents: the first `size` slots of the store. -/
def contents (array : DynamicArray) : List Int := (store array).take array.size

/-- Invariants A and C of the data model: `size ≤ capacity`, the store holds
exactly `capacity` ints, and a store of that many ints fits the address space. -/
def Valid (array : DynamicArray) : Prop :=
  array.size ≤ array.capacity ∧ (store array).length = array.capacity ∧
    array.capacity * sizeofInt ≤ SIZE_MAX

instance (array : DynamicArray) : Decidable (Valid array) := by
  unfold Valid; infer_instance

/-! ## Basic facts about the allocator and `resize` -/

theorem wrapSize_of_le {n : Nat} (h : n ≤ SIZE_MAX) : wrapSize n = n := by
  unfold wrapSize
  exact Nat.mod_eq_of_lt (Nat.lt_succ_of_le h)

theorem wrapSize_lt (n : Nat) : wrapSize n < SIZE_MAX + 1 := by
  unfold wrapSize
  exact Nat.mod_lt _ (Nat.succ_pos _)

theorem realloc_none (old : Option (List Int)) (bytes : Nat) :
    realloc none old bytes = none := rfl

theorem realloc_some (junk : Int) (old : Option (List Int)) (bytes : Nat) :
    realloc (some junk) old bytes =
      some ((old.getD []).take (bytes / sizeofInt) ++
        List.replicate (bytes / sizeofInt - ((old.getD []).take (bytes / sizeofInt)).length)
          junk) := rfl

theorem realloc_some_length (junk : Int) (old : Option (List Int)) (bytes : Nat) :
    ∃ blk, realloc (some junk) old bytes = some blk ∧ blk.length = bytes / sizeofInt ∧
      ∀ k, k ≤ (old.getD []).length → k ≤ bytes / sizeofInt →
        blk.take k = (old.getD []).take k := by
  refine ⟨_, realloc_some junk old bytes, ?_, ?_⟩
  · simp only [List.length_append, List.length_replicate, List.length_take]
    omega
  · intro k hk hn
    rw [List.take_append_of_le_length (by simp only [List.length_take]; omega)]
    rw [List.take_take, Nat.min_eq_left hn]

theorem resize_fail (array : DynamicArray) (newcap : Nat) (h : 0 < newcap) :
    resize none array newcap = (0, array) := by
  simp [resize, realloc_none, h]

theorem resize_ok (junk : Int) (array : DynamicArray) (newcap : Nat) :
    resize (some junk) array newcap =
      (1, { data := realloc (some junk) array.data (wrapSize (newcap * sizeofInt)),
            capacity := newcap, size := min array.size newcap }) := by
  unfold resize
  simp only [realloc_some, reduceCtorEq, false_and, if_false]
  by_cases h : array.size > newcap
  · simp [h, Nat.min_eq_right (Nat.le_of_lt h)]
  · simp [h, Nat.min_eq_left (Nat.le_of_not_gt h)]

theorem resize_zero (reply : Reply) (array : DynamicArray) :
    resize reply array 0 =
      (1, { data := realloc reply array.data 0, capacity := 0, size := 0 }) := by
  unfold resize
  by_cases h : array.size > 0
  · simp [h, wrapSize]
  · have : array.size = 0 := by omega
    cases array
    simp_all [wrapSize]

theorem resize_size_le_capacity (reply : Reply) (array : DynamicArray) (newcap : Nat)
    (h : array.size ≤ array.capacity) :
    (resize reply array newcap).2.size ≤ (resize reply array newcap).2.capacity := by
  cases reply with
  | none =>
    rcases Nat.eq_zero_or_pos newcap with h0 | h0
    · subst h0; rw [resize_zero]
    · rw [resize_fail _ _ h0]; exact h
  | some junk =>
    rw [resize_ok]
    exact Nat.min_le_right _ _

/-! ## One append -/

theorem storeAtEnd_ok {array : DynamicArray} {value : Int} {rc : Int}
    {array1 : Option DynamicArray} (h : storeAtEnd array value = .ok (rc, array1)) :
    ∃ blk, array.data = some blk ∧ array.size < blk.length ∧ rc = 1 ∧
      array1 = some { array with data := some (blk.set array.size value),
                                 size := wrapSize (array.size + 1) } := by
  unfold storeAtEnd writeSlot at h
  cases hd : array.data with
  | none => simp [hd] at h
  | some blk =>
    simp only [hd] at h
    by_cases hlt : array.size < blk.length
    · simp only [hlt, if_true, Except.ok.injEq, Prod.mk.injEq] at h
      exact ⟨blk, rfl, hlt, h.1.symm, h.2.symm⟩
    · simp [hlt] at h

theorem storeAtEnd_of_lt {array : DynamicArray} {blk : List Int} (value : Int)
    (hd : array.data = some blk) (hlt : array.size < blk.length) :
    storeAtEnd array value =
      .ok (1, some { array with data := some (blk.set array.size value),
                                size := wrapSize (array.size + 1) }) := by
  unfold storeAtEnd writeSlot
  simp [hd, hlt]

/-- What a returning append looks like: either the growth step failed and the
buffer is handed back as it was, or the value was written at the old size. -/
theorem append_ok_cases {reply : Reply} {array : DynamicArray} {value : Int} {rc : Int}
    {array1 : Option DynamicArray}
    (h : dynamic_array_append reply (some array) value = .ok (rc, array1)) :
    (rc = 0 ∧ array1 = some array ∧ array.size = array.capacity) ∨
    (rc = 1 ∧ array.size ≠ array.capacity ∧ ∃ blk, array.data = some blk ∧
        array.size < blk.length ∧
        array1 = some { array with data := some (blk.set array.size value),
                                   size := wrapSize (array.size + 1) }) ∨
    (rc = 1 ∧ array.size = array.capacity ∧
      ∃ junk blk, reply = some junk ∧
        realloc reply array.data
          (wrapSize ((if array.capacity = 0 then 1 else wrapSize (array.capacity * 2))
            * sizeofInt)) = some blk ∧
        array.size < blk.length ∧
        blk.length ≤ (if array.capacity = 0 then 1 else wrapSize (array.capacity * 2)) ∧
        array1 = some { data := some (blk.set array.size value),
                        capacity := if array.capacity = 0 then 1 else wrapSize (array.capacity * 2),
                        size := wrapSize (array.size + 1) }) := by
  unfold dynamic_array_append at h
  by_cases hfull : array.size = array.capacity
  · simp only [hfull, if_true] at h
    generalize hN : (if array.capacity = 0 then 1 else wrapSize (array.capacity * 2)) = N at h ⊢
    cases reply with
    | none =>
      rcases Nat.eq_zero_or_pos N with h0 | h0
      · subst h0
        rw [resize_zero] at h
        simp [storeAtEnd, writeSlot, realloc_none] at h
      · rw [resize_fail _ _ h0] at h
        simp only [if_true, Except.ok.injEq, Prod.mk.injEq] at h
        exact Or.inl ⟨h.1.symm, h.2.symm, hfull⟩
    | some junk =>
      rw [resize_ok] at h
      obtain ⟨blk, hblk, hlen, -⟩ := realloc_some_length junk array.data (wrapSize (N * sizeofInt))
      simp only [one_ne_zero, if_false] at h
      obtain ⟨blk1, hd1, hlt1, hrc, ha1⟩ := storeAtEnd_ok h
      simp only [hblk, Option.some.injEq] at hd1
      subst hd1
      have hle : blk.length ≤ N := by
        rw [hlen]
        have := Nat.mod_le (N * sizeofInt) (SIZE_MAX + 1)
        unfold wrapSize
        unfold sizeofInt at *
        omega
      simp only at hlt1 ha1
      have hmin : min array.size N = array.size := by omega
      rw [hmin] at hlt1 ha1
      exact Or.inr (Or.inr ⟨hrc, hfull, junk, blk, rfl, hblk, hlt1, hle, ha1⟩)
  · simp only [hfull, if_false] at h
    obtain ⟨blk, hd, hlt, hrc, ha1⟩ := storeAtEnd_ok h
    exact Or.inr (Or.inl ⟨hrc, hfull, blk, hd, hlt, ha1⟩)

/-! ## Invariant A -/

theorem size_max_eq : SIZE_MAX = 18446744073709551615 := by
  unfold SIZE_MAX; norm_num

/-- C2. Invariant A: a returning append on a buffer with `size ≤ capacity` gives
back a buffer with `size ≤ capacity`, and when it reports success the size is
exactly the old size plus one; `size ≤ capacity` also holds after a failed
append, after `dynamic_array_set`, after `resize` to any new capacity and for
every buffer `dynamic_array_create` returns.  `capacity * 2` is computed modulo
`2 ^ 64`; `hcap` says the capacity field holds a `size_t` value. -/
theorem C2_size_le_capacity (reply : Reply) (array : DynamicArray) (value : Int)
    (hcap : array.capacity ≤ SIZE_MAX) (hinv : array.size ≤ array.capacity) :
    (∀ rc array1, dynamic_array_append reply (some array) value = .ok (rc, some array1) →
        array1.size ≤ array1.capacity ∧ (rc = 0 ∨ rc = 1) ∧
        (rc = 1 → array1.size = array.size + 1) ∧ (rc = 0 → array1 = array)) ∧
    (∀ index rc array1, dynamic_array_set (some array) index value = .ok (rc, some array1) →
        array1.size ≤ array1.capacity) ∧
    (∀ newcap, (resize reply array newcap).2.size ≤ (resize reply array newcap).2.capacity) ∧
    (∀ structReply initial_cap array1,
        dynamic_array_create structReply reply initial_cap = some array1 →
        array1.size ≤ array1.capacity) := by
  refine ⟨?_, ?_, ?_, ?_⟩
  · intro rc array1 h
    rcases append_ok_cases h with ⟨hrc, ha, -⟩ | ⟨hrc, hne, blk, -, -, ha⟩ |
      ⟨hrc, hfull, junk, blk, -, -, hlt, hle, ha⟩
    · simp only [Option.some.injEq] at ha
      subst ha
      exact ⟨hinv, Or.inl hrc, fun h1 => by omega, fun _ => rfl⟩
    · simp only [Option.some.injEq] at ha
      have hw : wrapSize (array.size + 1) = array.size + 1 := wrapSize_of_le (by omega)
      subst ha
      simp only [hw]
      exact ⟨by omega, Or.inr hrc, fun _ => trivial, fun h0 => by omega⟩
    · simp only [Option.some.injEq] at ha
      have hN : (if array.capacity = 0 then 1 else wrapSize (array.capacity * 2)) ≤ SIZE_MAX := by
        split
        · rw [size_max_eq]; omega
        · exact Nat.le_of_lt_succ (wrapSize_lt _)
      have hw : wrapSize (array.size + 1) = array.size + 1 := wrapSize_of_le (by omega)
      subst ha
      simp only [hw]
      exact ⟨by omega, Or.inr hrc, fun _ => trivial, fun h0 => by omega⟩
  · intro index rc array1 h
    unfold dynamic_array_set at h
    by_cases hi : array.size ≤ index
    · simp only [hi, if_true, Except.ok.injEq, Prod.mk.injEq, Option.some.injEq] at h
      rw [← h.2]; exact hinv
    · simp only [hi, if_false] at h
      cases hw : writeSlot array.data index value with
      | error e => simp [hw] at h
      | ok blk =>
        simp only [hw, Except.ok.injEq, Prod.mk.injEq, Option.some.injEq] at h
        rw [← h.2]; exact hinv
  · intro newcap
    exact resize_size_le_capacity reply array newcap hinv
  · intro structReply initial_cap array1 h
    unfold dynamic_array_create at h
    cases structReply with
    | none => simp at h
    | some sj =>
      simp only at h
      by_cases hpos : initial_cap > 0
      · simp only [hpos, if_true] at h
        split at h
        · simp at h
        · simp only [Option.some.injEq] at h
          rw [← h]
          exact resize_size_le_capacity _ _ _ (Nat.le_refl 0)
      · simp only [hpos, if_false, Option.some.injEq] at h
        rw [← h]

theorem C2_size_le_capacity_witness :
    (2 : Nat) ≤ SIZE_MAX ∧ (2 : Nat) ≤ 2 ∧
    dynamic_array_append (some 0) (some ⟨some [7, 8], 2, 2⟩) 9 =
      .ok (1, some ⟨some [7, 8, 9, 0], 4, 3⟩) ∧
    ((3 : Nat) ≤ 4 ∧ ((1 : Int) = 0 ∨ (1 : Int) = 1) ∧ ((1 : Int) = 1 → (3 : Nat) = 2 + 1) ∧
      ((1 : Int) = 0 → (⟨some [7, 8, 9, 0], 4, 3⟩ : DynamicArray) = ⟨some [7, 8], 2, 2⟩)) :=
  ⟨by decide, by decide, by decide,
    (C2_size_le_capacity (some 0) ⟨some [7, 8], 2, 2⟩ 9 (by decide) (by decide)).1
      1 ⟨some [7, 8, 9, 0], 4, 3⟩ (by decide)⟩

/-! ## Doubling, bounds, round trip, failure atomicity -/

/-- C3. Doubling law, read off the result of a successful append: the capacity
changes if and only if `size == capacity` held before the call; in that case the
new capacity is 1 when the old one was 0 and twice the old one otherwise (the
doubling did not wrap, or the write would have left the block); when
`size < capacity` the capacity is unchanged.  When `size != capacity` the
allocator is not consulted: the outcome is the same for every reply. -/
theorem C3_doubling_law (array : DynamicArray) (value : Int) :
    (∀ reply array1,
        dynamic_array_append reply (some array) value = .ok (1, some array1) →
        (array1.capacity ≠ array.capacity ↔ array.size = array.capacity) ∧
        (array.size = array.capacity →
          array1.capacity = if array.capacity = 0 then 1 else 2 * array.capacity) ∧
        (array.size < array.capacity → array1.capacity = array.capacity)) ∧
    (array.size ≠ array.capacity → ∀ reply1 reply2,
        dynamic_array_append reply1 (some array) value =
          dynamic_array_append reply2 (some array) value) := by
  constructor
  · intro reply array1 h
    rcases append_ok_cases h with ⟨hrc, -, -⟩ | ⟨-, hne, blk, -, -, ha⟩ |
      ⟨-, hfull, junk, blk, -, -, hlt, hle, ha⟩
    · omega
    · simp only [Option.some.injEq] at ha
      subst ha
      exact ⟨by simp [hne], fun h1 => absurd h1 hne, fun _ => rfl⟩
    · simp only [Option.some.injEq] at ha
      have hN : (if array.capacity = 0 then 1 else wrapSize (array.capacity * 2)) =
          if array.capacity = 0 then 1 else 2 * array.capacity := by
        by_cases h0 : array.capacity = 0
        · simp [h0]
        · simp only [h0, if_false] at hle ⊢
          unfold wrapSize at hle ⊢
          rw [size_max_eq] at hle ⊢
          omega
      rw [hN] at ha
      subst ha
      simp only
      refine ⟨⟨fun _ => hfull, fun _ => ?_⟩, fun _ => trivial, fun h1 => by omega⟩
      split <;> omega
  · intro hne reply1 reply2
    simp [dynamic_array_append, hne]

theorem C3_doubling_law_witness :
    dynamic_array_append (some 0) (some ⟨some [7, 8], 2, 2⟩) 9 =
        .ok (1, some ⟨some [7, 8, 9, 0], 4, 3⟩) ∧
    ((4 : Nat) ≠ 2 ↔ (2 : Nat) = 2) ∧
    ((2 : Nat) = 2 → (4 : Nat) = if (2 : Nat) = 0 then 1 else 2 * 2) ∧
    ((2 : Nat) < 2 → (4 : Nat) = 2) :=
  ⟨by decide, (C3_doubling_law ⟨some [7, 8], 2, 2⟩ 9).1 (some 0) ⟨some [7, 8, 9, 0], 4, 3⟩
    (by decide)⟩

/-- C5. Bounds law for set: with `index ≥ size` (also when `index < capacity`,
also on the empty buffer) `dynamic_array_set` returns 0 and hands the buffer
back with data, size and capacity as they were. -/
theorem C5_set_out_of_bounds (array : DynamicArray) (index : Nat) (value : Int)
    (h : array.size ≤ index) :
    dynamic_array_set (some array) index value = .ok (0, some array) := by
  simp [dynamic_array_set, h]

theorem C5_set_out_of_bounds_witness :
    (1 : Nat) ≤ 2 ∧
    dynamic_array_set (some ⟨some [7, 8, 9, 0], 4, 1⟩) 2 5 =
      .ok (0, some ⟨some [7, 8, 9, 0], 4, 1⟩) :=
  ⟨by decide, C5_set_out_of_bounds ⟨some [7, 8, 9, 0], 4, 1⟩ 2 5 (by decide)⟩

/-- C6. Set/get round trip: on a buffer whose first `size` slots lie in its
block, for `i < size` the call `dynamic_array_set(b, i, v)` returns 1, afterwards
`dynamic_array_get(b, i)` is `v`, and size, capacity and the value read at every
other index `j < size` are unchanged. -/
theorem C6_set_get_round_trip (array : DynamicArray) (blk : List Int) (i : Nat) (v : Int)
    (hdata : array.data = some blk) (hstore : array.size ≤ blk.length)
    (hi : i < array.size) :
    ∃ array1, dynamic_array_set (some array) i v = .ok (1, some array1) ∧
      dynamic_array_get (some array1) i = .ok v ∧
      array1.size = array.size ∧ array1.capacity = array.capacity ∧
      ∀ j, j < array.size → j ≠ i →
        dynamic_array_get (some array1) j = dynamic_array_get (some array) j := by
  have hlt : i < blk.length := Nat.lt_of_lt_of_le hi hstore
  refine ⟨{ array with data := some (blk.set i v) }, ?_, ?_, rfl, rfl, ?_⟩
  · simp [dynamic_array_set, writeSlot, hdata, hlt, Nat.not_le.mpr hi]
  · simp [dynamic_array_get, readSlot, List.getElem?_set_self, hlt]
  · intro j _ hji
    simp [dynamic_array_get, readSlot, hdata, List.getElem?_set_ne (Ne.symm hji)]

theorem C6_set_get_round_trip_witness :
    (3 : Nat) ≤ [7, 8, 9, 0].length ∧ (1 : Nat) < 3 ∧
    ∃ array1, dynamic_array_set (some ⟨some [7, 8, 9, 0], 4, 3⟩) 1 5 = .ok (1, some array1) ∧
      dynamic_array_get (some array1) 1 = .ok 5 ∧
      array1.size = 3 ∧ array1.capacity = 4 ∧
      ∀ j, j < 3 → j ≠ 1 →
        dynamic_array_get (some array1) j =
          dynamic_array_get (some ⟨some [7, 8, 9, 0], 4, 3⟩) j :=
  ⟨by decide, by decide,
    C6_set_get_round_trip ⟨some [7, 8, 9, 0], 4, 3⟩ [7, 8, 9, 0] 1 5 rfl (by decide) (by decide)⟩

/-- C7. Failure atomicity: on a full buffer (`size == capacity`) whose store
fits the address space, when the `realloc` of the growth step returns `NULL`,
`resize` returns 0 (for every positive new capacity, the one append asks for
included) and `dynamic_array_append` returns 0, both leaving data, size and
capacity exactly as they were. -/
theorem C7_failure_atomicity (array : DynamicArray) (value : Int)
    (hfull : array.size = array.capacity)
    (hfit : array.capacity * sizeofInt ≤ SIZE_MAX) :
    resize none array (if array.capacity = 0 then 1 else wrapSize (array.capacity * 2))
      = (0, array) ∧
    (∀ newcap, 0 < newcap → resize none array newcap = (0, array)) ∧
    dynamic_array_append none (some array) value = .ok (0, some array) := by
  have hpos : 0 < (if array.capacity = 0 then 1 else wrapSize (array.capacity * 2)) := by
    by_cases h0 : array.capacity = 0
    · simp [h0]
    · simp only [h0, if_false]
      unfold wrapSize
      unfold sizeofInt at hfit
      rw [size_max_eq] at hfit ⊢
      omega
  refine ⟨resize_fail _ _ hpos, fun n hn => resize_fail _ _ hn, ?_⟩
  unfold dynamic_array_append
  simp only [hfull, if_true]
  rw [resize_fail _ _ hpos]
  simp

theorem C7_failure_atomicity_witness :
    (2 : Nat) = 2 ∧ 2 * sizeofInt ≤ SIZE_MAX ∧
    resize none ⟨some [7, 8], 2, 2⟩ (if (2 : Nat) = 0 then 1 else wrapSize (2 * 2))
      = (0, ⟨some [7, 8], 2, 2⟩) ∧
    (∀ newcap, 0 < newcap → resize none ⟨some [7, 8], 2, 2⟩ newcap = (0, ⟨some [7, 8], 2, 2⟩)) ∧
    dynamic_array_append none (some ⟨some [7, 8], 2, 2⟩) 9 = .ok (0, some ⟨some [7, 8], 2, 2⟩) :=
  ⟨rfl, by decide, C7_failure_atomicity ⟨some [7, 8], 2, 2⟩ 9 rfl (by decide)⟩

/-! ## Construction and reads beyond the logical size -/

/-- C8. Construction: when the allocator grants both requests,
`dynamic_array_create(n)` returns a buffer with `dynamic_array_size == 0` and
`dynamic_array_capacity == n`; for `n == 0` no store is requested (the store
reply is not consulted) and `data` is `NULL`; when the `malloc` of the struct
fails, or `n > 0` and the `realloc` of the store fails, the result is `NULL`. -/
theorem C8_create (n : Nat) (structJunk : Int) :
    (∀ storeJunk, ∃ array,
        dynamic_array_create (some structJunk) (some storeJunk) n = some array ∧
        dynamic_array_size (some array) = 0 ∧ dynamic_array_capacity (some array) = n) ∧
    (∀ storeReply, dynamic_array_create (some structJunk) storeReply 0 =
        some { data := none, capacity := 0, size := 0 }) ∧
    (∀ storeReply, dynamic_array_create none storeReply n = none) ∧
    (0 < n → dynamic_array_create (some structJunk) none n = none) := by
  refine ⟨?_, ?_, ?_, ?_⟩
  · intro storeJunk
    rcases Nat.eq_zero_or_pos n with h0 | hpos
    · subst h0
      exact ⟨{ data := none, capacity := 0, size := 0 }, by simp [dynamic_array_create], rfl, rfl⟩
    · refine ⟨(resize (some storeJunk) { data := none, capacity := 0, size := 0 } n).2, ?_, ?_, ?_⟩
      · simp [dynamic_array_create, hpos, resize_ok]
      · simp [dynamic_array_size, resize_ok]
      · simp [dynamic_array_capacity, resize_ok]
  · intro storeReply
    simp [dynamic_array_create]
  · intro storeReply
    rfl
  · intro hpos
    simp [dynamic_array_create, hpos, resize_fail]

theorem C8_create_witness :
    (0 : Nat) < 3 ∧ dynamic_array_create (some 0) none 3 = none ∧
    dynamic_array_create (some 0) (some 99) 3 = some ⟨some [99, 99, 99], 3, 0⟩ :=
  ⟨by decide, (C8_create 3 0).2.2.2 (by decide), by decide⟩

/-- C4. Evaluation of `dynamic_array_get` at indices `≥ size`: the function has
no test of `index` against `size`.  After `dynamic_array_create(2)` and one
append of 5 the buffer has size 1 and capacity 2, and `dynamic_array_get` at
index 1 does not fail: it reads slot 1 of the block and returns what the
allocator left there (99 here).  On the fresh buffer of size 0 it reads slot 0
in the same way, and on the buffer of `dynamic_array_create(0)` it reads
through the `NULL` data pointer. -/
theorem C4_get_reads_beyond_size :
    dynamic_array_append none (dynamic_array_create (some 0) (some 99) 2) 5 =
        .ok (1, some ⟨some [5, 99], 2, 1⟩) ∧
    dynamic_array_get (some ⟨some [5, 99], 2, 1⟩) 1 = .ok 99 ∧
    dynamic_array_size (dynamic_array_create (some 0) (some 99) 2) = 0 ∧
    dynamic_array_get (dynamic_array_create (some 0) (some 99) 2) 0 = .ok 99 ∧
    dynamic_array_size (dynamic_array_create (some 0) none 0) = 0 ∧
    dynamic_array_get (dynamic_array_create (some 0) none 0) 0 = .error .nullDeref := by
  decide

/-! ## Appends on valid buffers -/

theorem take_succ_set_self (l : List Int) (n : Nat) (v : Int) (h : n < l.length) :
    (l.set n v).take (n + 1) = l.take n ++ [v] := by
  rw [List.take_succ, List.getElem?_set_self h]
  congr 1
  induction l generalizing n with
  | nil => simp
  | cons x xs ih =>
    cases n with
    | zero => simp
    | succ m =>
      simp only [List.set_cons_succ, List.take_succ_cons, List.cons.injEq, true_and]
      exact ih m (by simpa using h)

/-- One append on a valid buffer, the allocator granting the growth step if it
is taken and the new capacity fitting the address space. -/
theorem append_valid (reply : Reply) (array : DynamicArray) (value : Int)
    (hv : Valid array)
    (hreply : array.size = array.capacity → ∃ junk, reply = some junk)
    (hroom : array.size = array.capacity →
      (if array.capacity = 0 then 1 else 2 * array.capacity) * sizeofInt ≤ SIZE_MAX) :
    ∃ array1, dynamic_array_append reply (some array) value = .ok (1, some array1) ∧
      Valid array1 ∧ contents array1 = contents array ++ [value] ∧
      array1.size = array.size + 1 ∧
      array1.capacity = if array.size = array.capacity then
        (if array.capacity = 0 then 1 else 2 * array.capacity) else array.capacity := by
  obtain ⟨hA, hC, hfit⟩ := hv
  have hsz : array.capacity ≤ SIZE_MAX := by unfold sizeofInt at hfit; omega
  by_cases hfull : array.size = array.capacity
  · obtain ⟨junk, rfl⟩ := hreply hfull
    have hroom1 := hroom hfull
    have hN : (if array.capacity = 0 then 1 else wrapSize (array.capacity * 2)) =
        if array.capacity = 0 then 1 else 2 * array.capacity := by
      by_cases h0 : array.capacity = 0
      · simp [h0]
      · simp only [h0, if_false] at hroom1 ⊢
        rw [Nat.mul_comm]
        exact wrapSize_of_le (by unfold sizeofInt at hroom1; omega)
    generalize hNdef : (if array.capacity = 0 then 1 else 2 * array.capacity) = N at hN hroom1 ⊢
    have hNgt : array.capacity < N := by
      rw [← hNdef]; split <;> omega
    obtain ⟨blk, hblk, hlen, htake⟩ :=
      realloc_some_length junk array.data (wrapSize (N * sizeofInt))
    rw [wrapSize_of_le hroom1] at hlen htake
    have hdiv : N * sizeofInt / sizeofInt = N := Nat.mul_div_cancel _ (by decide)
    rw [hdiv] at hlen htake
    have hmin : min array.size N = array.size := by omega
    have hNle : N ≤ SIZE_MAX := by unfold sizeofInt at hroom1; omega
    refine ⟨{ data := some (blk.set array.size value), capacity := N,
              size := array.size + 1 }, ?_, ?_, ?_, rfl, ?_⟩
    · unfold dynamic_array_append
      simp only [hfull, if_true, hN]
      rw [resize_ok, hblk]
      simp only [one_ne_zero, if_false]
      rw [hmin]
      rw [storeAtEnd_of_lt value rfl (by simp only; omega)]
      simp only
      rw [wrapSize_of_le (by omega)]
      simp [hfull]
    · refine ⟨by simp only; omega, ?_, hroom1⟩
      simp [store, hlen]
    · unfold contents store
      simp only [Option.getD_some]
      rw [take_succ_set_self _ _ _ (by omega)]
      rw [htake array.size (by unfold store at hC; omega) (by omega)]
    · simp [hfull]
  · have hlt : array.size < array.capacity := by omega
    cases hd : array.data with
    | none => simp [store, hd] at hC; omega
    | some blk =>
      have hlen : blk.length = array.capacity := by simpa [store, hd] using hC
      refine ⟨{ array with data := some (blk.set array.size value),
                           size := array.size + 1 }, ?_, ?_, ?_, rfl, ?_⟩
      · unfold dynamic_array_append
        simp only [hfull, if_false]
        rw [storeAtEnd_of_lt value hd (by omega), wrapSize_of_le (by omega)]
      · refine ⟨by simp only; omega, ?_, hfit⟩
        simp [store, hlen]
      · unfold contents store
        simp only [Option.getD_some, hd]
        exact take_succ_set_self _ _ _ (by omega)
      · simp [hfull]

/-! ## Runs of appends -/

/-- A run of appends on a valid buffer, every growth step granted, all
capacities reached fitting the address space. -/
theorem appendAll_valid (vs : List Int) :
    ∀ (junks : List Int) (array : DynamicArray), junks.length = vs.length → Valid array →
      2 * (array.size + vs.length) * sizeofInt ≤ SIZE_MAX →
      ∃ array1, appendAll (junks.map some) (some array) vs =
          .ok (List.replicate vs.length 1, some array1) ∧
        Valid array1 ∧ contents array1 = contents array ++ vs ∧
        array1.size = array.size + vs.length := by
  induction vs with
  | nil =>
    intro junks array _ hv _
    exact ⟨array, rfl, hv, by simp, rfl⟩
  | cons v vs ih =>
    intro junks array hlen hv hroom
    cases junks with
    | nil => simp at hlen
    | cons j js =>
      simp only [List.length_cons] at hlen hroom
      obtain ⟨a1, happ, hv1, hc1, hs1, -⟩ := append_valid (some j) array v hv
        (fun _ => ⟨j, rfl⟩)
        (fun hfull => by
          obtain ⟨hA, -, -⟩ := hv
          unfold sizeofInt at hroom ⊢
          split <;> omega)
      obtain ⟨a2, hall, hv2, hc2, hs2⟩ := ih js a1 (by omega) hv1
        (by rw [hs1]; unfold sizeofInt at hroom ⊢; omega)
      refine ⟨a2, ?_, hv2, ?_, ?_⟩
      · simp only [appendAll, List.map_cons, List.headD_cons, List.tail_cons, happ, hall,
          List.length_cons, List.replicate_succ]
      · rw [hc2, hc1]; simp
      · rw [hs2, hs1]; simp only [List.length_cons]; omega

/-- C1 (amended). For every capacity hint `c` and list `vs` such that neither
`c` ints nor `2 * length vs` ints exceed `SIZE_MAX` bytes: starting from
`dynamic_array_create(c)` and appending the elements of `vs` in order, every
allocation being granted, each append returns 1, the final size is `length vs`,
and `dynamic_array_get(i)` returns `vs[i]` for every `i < length vs`. -/
theorem C1_appends_store_in_order (c : Nat) (vs : List Int) (structJunk storeJunk : Int)
    (junks : List Int) (hjunks : junks.length = vs.length)
    (hc : c * sizeofInt ≤ SIZE_MAX) (hvs : 2 * vs.length * sizeofInt ≤ SIZE_MAX) :
    ∃ array, appendAll (junks.map some)
          (dynamic_array_create (some structJunk) (some storeJunk) c) vs =
        .ok (List.replicate vs.length 1, some array) ∧
      dynamic_array_size (some array) = vs.length ∧
      ∀ i (h : i < vs.length), dynamic_array_get (some array) i = .ok vs[i] := by
  obtain ⟨a0, hcreate, hv0, hs0⟩ : ∃ a0,
      dynamic_array_create (some structJunk) (some storeJunk) c = some a0 ∧ Valid a0 ∧
        a0.size = 0 := by
    rcases Nat.eq_zero_or_pos c with h0 | hpos
    · subst h0
      refine ⟨{ data := none, capacity := 0, size := 0 }, by simp [dynamic_array_create], ?_, rfl⟩
      exact ⟨Nat.le_refl _, rfl, by decide⟩
    · obtain ⟨blk, hblk, hlen, -⟩ :=
        realloc_some_length storeJunk none (wrapSize (c * sizeofInt))
      rw [wrapSize_of_le hc, Nat.mul_div_cancel _ (by decide)] at hlen
      refine ⟨{ data := some blk, capacity := c, size := 0 }, ?_, ?_, rfl⟩
      · simp [dynamic_array_create, hpos, resize_ok, hblk]
      · exact ⟨Nat.zero_le _, by simpa [store] using hlen, hc⟩
  obtain ⟨a1, hall, hv1, hc1, hs1⟩ := appendAll_valid vs junks a0 hjunks hv0
    (by rw [hs0]; simpa using hvs)
  have hcont : contents a1 = vs := by
    rw [hc1]; simp [contents, hs0]
  have hsize : a1.size = vs.length := by rw [hs1, hs0]; simp
  refine ⟨a1, by rw [hcreate]; exact hall, hsize, ?_⟩
  intro i hi
  have hget : (store a1)[i]? = some vs[i] := by
    have h1 : (contents a1)[i]? = some vs[i] := by
      rw [hcont]; exact List.getElem?_eq_getElem hi
    unfold contents at h1
    rw [List.getElem?_take_of_lt (by omega)] at h1
    exact h1
  unfold dynamic_array_get readSlot
  cases hd : a1.data with
  | none => simp [store, hd] at hget
  | some blk =>
    simp only [store, hd, Option.getD_some] at hget
    simp [hd, hget]

theorem C1_appends_store_in_order_witness :
    [1, 2, 3].length = [5, 25, 18].length ∧ 0 * sizeofInt ≤ SIZE_MAX ∧
    2 * [5, 25, 18].length * sizeofInt ≤ SIZE_MAX ∧
    ∃ array, appendAll ([1, 2, 3].map some) (dynamic_array_create (some 0) (some 0) 0)
          [5, 25, 18] = .ok (List.replicate [5, 25, 18].length 1, some array) ∧
      dynamic_array_size (some array) = [5, 25, 18].length ∧
      ∀ i (h : i < [5, 25, 18].length),
        dynamic_array_get (some array) i = .ok ([5, 25, 18] : List Int)[i] :=
  ⟨by decide, by decide, by decide,
    C1_appends_store_in_order 0 [5, 25, 18] 0 0 [1, 2, 3] (by decide) (by decide) (by decide)⟩

/-- C1 as stated fails: with the capacity hint `2 ^ 62 + 1` the byte count
`(2 ^ 62 + 1) * sizeof(int)` wraps to 4, so the granted block holds one int
while `capacity` says `2 ^ 62 + 1`; the first append returns 1, the second one
writes `data[1]` outside the block instead of returning 1. -/
theorem C1_counterexample :
    dynamic_array_create (some 0) (some 0) (2 ^ 62 + 1) = some ⟨some [0], 2 ^ 62 + 1, 0⟩ ∧
    dynamic_array_append (some 0) (some ⟨some [0], 2 ^ 62 + 1, 0⟩) 5 =
      .ok (1, some ⟨some [5], 2 ^ 62 + 1, 1⟩) ∧
    dynamic_array_append (some 0) (some ⟨some [5], 2 ^ 62 + 1, 1⟩) 6 = .error .outOfBlock ∧
    ¬ ∃ array, appendAll [some 0, some 0]
        (dynamic_array_create (some 0) (some 0) (2 ^ 62 + 1)) [5, 6] =
      .ok (List.replicate [5, 6].length 1, some array) := by
  refine ⟨by decide, by decide, by decide, ?_⟩
  rintro ⟨array, h⟩
  have : appendAll [some 0, some 0]
      (dynamic_array_create (some 0) (some 0) (2 ^ 62 + 1)) [5, 6] = .error .outOfBlock := by
    decide
  rw [this] at h
  exact absurd h (by simp)

/-! ## The loops of detect_crit_no2 -/

theorem int_max_eq : INT_MAX = 2147483647 := by
  unfold INT_MAX; norm_num

theorem intIncr_ok {n : Nat} (h : n + 1 ≤ INT_MAX) : intIncr n = .ok (n + 1) := by
  unfold intIncr
  simp [Nat.not_lt.mpr h]

theorem readSlot_of_lt {blk : List Int} {i : Nat} (h : i < blk.length) :
    readSlot (some blk) i = .ok blk[i] := by
  simp [readSlot, List.getElem?_eq_getElem h]

theorem window_cons (blk : List Int) (i todo : Nat) (h : i < blk.length) :
    (blk.drop i).take (todo + 1) = blk[i] :: (blk.drop (i + 1)).take todo := by
  rw [List.drop_eq_getElem_cons h, List.take_succ_cons]

/-- The counting loop returns the number of values above 20 among the slots
it visits, when those slots are in the block and `i` stays an `int`. -/
theorem countCrit_eq (blk : List Int) :
    ∀ (todo i counter : Nat), i + todo ≤ INT_MAX → counter ≤ i → i + todo ≤ blk.length →
      countCrit (some blk) todo i counter =
        .ok (counter + (((blk.drop i).take todo).filter (fun x => decide (x > 20))).length) := by
  intro todo
  induction todo with
  | zero => intro i counter _ _ _; simp [countCrit]
  | succ n ih =>
    intro i counter hint hc hlen
    have hi : i < blk.length := by omega
    rw [window_cons blk i n hi]
    unfold countCrit
    rw [readSlot_of_lt hi, intIncr_ok (by omega : i + 1 ≤ INT_MAX)]
    simp only
    by_cases hx : blk[i] > 20
    · simp only [hx, if_true]
      rw [intIncr_ok (by omega : counter + 1 ≤ INT_MAX)]
      simp only
      rw [ih (i + 1) (counter + 1) (by omega) (by omega) (by omega)]
      simp [List.filter_cons, hx]
      omega
    · simp only [hx, if_false]
      rw [ih (i + 1) counter (by omega) (by omega) (by omega)]
      simp [List.filter_cons, hx]

/-- The counting loop is undefined when it has to take `i` past `INT_MAX`. -/
theorem countCrit_overflow (blk : List Int) :
    ∀ (todo i counter : Nat), counter ≤ i → i ≤ INT_MAX → INT_MAX < i + todo →
      i + todo ≤ blk.length →
      countCrit (some blk) todo i counter = .error .signedOverflow := by
  intro todo
  induction todo with
  | zero => intro i counter _ h1 h2 _; omega
  | succ n ih =>
    intro i counter hc hi hover hlen
    have hlt : i < blk.length := by omega
    unfold countCrit
    rw [readSlot_of_lt hlt]
    simp only
    by_cases hlast : i + 1 ≤ INT_MAX
    · rw [intIncr_ok hlast]
      by_cases hx : blk[i] > 20
      · simp only [hx, if_true]
        rw [intIncr_ok (by omega : counter + 1 ≤ INT_MAX)]
        simp only
        exact ih (i + 1) (counter + 1) (by omega) hlast (by omega) (by omega)
      · simp only [hx, if_false]
        exact ih (i + 1) counter (by omega) hlast (by omega) (by omega)
    · have hov : intIncr i = .error .signedOverflow := by
        unfold intIncr; simp [Nat.lt_of_not_le hlast]
      rw [hov]
      by_cases hx : blk[i] > 20
      · simp only [hx, if_true]
        by_cases hcn : counter + 1 ≤ INT_MAX
        · rw [intIncr_ok hcn]
        · have hov2 : intIncr counter = .error .signedOverflow := by
            unfold intIncr; simp [Nat.lt_of_not_le hcn]
          rw [hov2]
      · simp only [hx, if_false]

/-- The filling loop writes the values above 20 it meets, in order, into the
slots `cnt, cnt + 1, ...` of the target block and counts them into `size`. -/
theorem fillCrit_eq (blk : List Int) :
    ∀ (todo i cnt : Nat) (crit : DynamicArray) (cblk : List Int),
      crit.data = some cblk → i + todo ≤ INT_MAX → cnt ≤ i → i + todo ≤ blk.length →
      crit.size + todo ≤ SIZE_MAX →
      cnt + (((blk.drop i).take todo).filter (fun x => decide (x > 20))).length ≤ cblk.length →
      fillCrit (some blk) todo i cnt crit =
        .ok { crit with
              data := some (cblk.take cnt ++
                ((blk.drop i).take todo).filter (fun x => decide (x > 20)) ++
                cblk.drop (cnt +
                  (((blk.drop i).take todo).filter (fun x => decide (x > 20))).length)),
              size := crit.size +
                (((blk.drop i).take todo).filter (fun x => decide (x > 20))).length } := by
  intro todo
  induction todo with
  | zero =>
    intro i cnt crit cblk hd _ _ _ _ _
    cases crit
    simp only at hd
    simp [fillCrit, hd]
  | succ n ih =>
    intro i cnt crit cblk hd hint hc hlen hsz hroom
    have hi : i < blk.length := by omega
    rw [window_cons blk i n hi] at hroom ⊢
    unfold fillCrit
    rw [readSlot_of_lt hi, intIncr_ok (by omega : i + 1 ≤ INT_MAX)]
    simp only
    by_cases hx : blk[i] > 20
    · simp only [hx, if_true]
      simp only [List.filter_cons, hx, decide_True, if_true, List.length_cons] at hroom ⊢
      have hcnt : cnt < cblk.length := by omega
      simp only [writeSlot, hd, hcnt, if_true]
      rw [intIncr_ok (by omega : cnt + 1 ≤ INT_MAX)]
      simp only
      rw [wrapSize_of_le (by omega)]
      rw [ih (i + 1) (cnt + 1) _ (cblk.set cnt blk[i]) rfl (by omega) (by omega) (by omega)
        (by simp only; omega) (by simp only [List.length_set]; omega)]
      simp only [Except.ok.injEq, DynamicArray.mk.injEq, Option.some.injEq, true_and]
      refine ⟨?_, by omega⟩
      rw [take_succ_set_self _ _ _ hcnt, List.drop_set_of_lt _ _ (by omega)]
      simp only [List.append_assoc, List.singleton_append, List.cons_append, List.nil_append]
      rw [Nat.add_assoc cnt 1, Nat.add_comm 1]
    · simp only [hx, if_false]
      simp only [List.filter_cons, hx, decide_False] at hroom ⊢
      exact ih (i + 1) cnt crit cblk hd (by omega) (by omega) (by omega) (by omega)
        (by simpa using hroom)

/-- The filling loop leaves the target as it is when no visited value is above 20. -/
theorem fillCrit_none_found (blk : List Int) :
    ∀ (todo i cnt : Nat) (crit : DynamicArray),
      i + todo ≤ INT_MAX → i + todo ≤ blk.length →
      ((blk.drop i).take todo).filter (fun x => decide (x > 20)) = [] →
      fillCrit (some blk) todo i cnt crit = .ok crit := by
  intro todo
  induction todo with
  | zero => intro i cnt crit _ _ _; simp [fillCrit]
  | succ n ih =>
    intro i cnt crit hint hlen hnone
    have hi : i < blk.length := by omega
    rw [window_cons blk i n hi] at hnone
    unfold fillCrit
    rw [readSlot_of_lt hi, intIncr_ok (by omega : i + 1 ≤ INT_MAX)]
    simp only
    by_cases hx : blk[i] > 20
    · simp [List.filter_cons, hx] at hnone
    · simp only [hx, if_false]
      simp only [List.filter_cons, hx, decide_False] at hnone
      exact ih (i + 1) cnt crit (by omega) (by omega) (by simpa using hnone)

/-! ## Extraction of the values above 20 -/

/-- On a non-empty buffer of more than `INT_MAX` elements the counting loop of
`detect_crit_no2` overflows an `int`. -/
theorem detect_crit_no2_overflow (structReply storeReply : Reply) (array : DynamicArray)
    (blk : List Int) (hdata : array.data = some blk) (hstore : array.size ≤ blk.length)
    (hbig : INT_MAX < array.size) :
    detect_crit_no2 structReply storeReply (some array) = .error .signedOverflow := by
  have hne : array.size ≠ 0 := by omega
  have hcount := countCrit_overflow blk array.size 0 0 (Nat.le_refl 0) (Nat.zero_le _)
    (by omega) (by omega)
  unfold detect_crit_no2
  simp only [hne, if_false, hdata, hcount]

/-- C9 (amended). Extraction correctness for buffers of at most `INT_MAX`
elements: on a non-empty buffer whose first `size` slots lie in its block,
with both allocations granted, `detect_crit_no2` returns a new buffer whose
block holds exactly the source elements strictly greater than 20, in their
original order (20 itself is excluded), with size and capacity both equal to
the number of such elements. -/
theorem C9_extraction (array : DynamicArray) (blk : List Int) (structJunk storeJunk : Int)
    (hdata : array.data = some blk) (hstore : array.size ≤ blk.length)
    (hne : array.size ≠ 0) (hint : array.size ≤ INT_MAX) :
    detect_crit_no2 (some structJunk) (some storeJunk) (some array) =
      .ok (some { data := some ((contents array).filter (fun x => decide (x > 20))),
                  capacity := ((contents array).filter (fun x => decide (x > 20))).length,
                  size := ((contents array).filter (fun x => decide (x > 20))).length }) ∧
    contents { data := some ((contents array).filter (fun x => decide (x > 20))),
               capacity := ((contents array).filter (fun x => decide (x > 20))).length,
               size := ((contents array).filter (fun x => decide (x > 20))).length } =
      (contents array).filter (fun x => decide (x > 20)) := by
  constructor
  · have hwin : (blk.drop 0).take array.size = contents array := by
      simp [contents, store, hdata]
    have hcount := countCrit_eq blk array.size 0 0 (by omega) (Nat.le_refl 0) (by omega)
    rw [hwin, Nat.zero_add] at hcount
    generalize hF : (contents array).filter (fun x => decide (x > 20)) = F at hcount ⊢
    have hFlen : F.length ≤ array.size := by
      rw [← hF]
      refine Nat.le_trans (List.length_filter_le _ _) ?_
      simp only [contents, List.length_take]
      exact Nat.min_le_left _ _
    have hbytes : F.length * sizeofInt ≤ SIZE_MAX := by
      have h1 := int_max_eq
      have h2 := size_max_eq
      unfold sizeofInt
      omega
    obtain ⟨cblk, hcblk, hclen, -⟩ :=
      realloc_some_length storeJunk none (wrapSize (F.length * sizeofInt))
    rw [wrapSize_of_le hbytes, Nat.mul_div_cancel _ (by decide)] at hclen
    have hfill := fillCrit_eq blk array.size 0 0
      { data := some cblk, capacity := F.length, size := 0 } cblk rfl (by omega)
      (Nat.le_refl 0) (by omega)
      (by have h1 := int_max_eq; have h2 := size_max_eq; simp only; omega)
      (by rw [hwin, hF, hclen]; omega)
    rw [hwin, hF] at hfill
    unfold detect_crit_no2
    simp only [hne, if_false, hdata, hcount, resize_ok, hcblk, one_ne_zero, Nat.zero_min,
      hfill]
    simp only [List.take_zero, List.nil_append, Nat.zero_add, Except.ok.injEq,
      Option.some.injEq, DynamicArray.mk.injEq, and_true, List.append_right_eq_self]
    exact List.drop_eq_nil_of_le (by omega)
  · simp [contents, store]

theorem C9_extraction_witness :
    (7 : Nat) ≤ [5, 25, 18, 30, -2, 20, 21, 0].length ∧ (7 : Nat) ≠ 0 ∧ 7 ≤ INT_MAX ∧
    detect_crit_no2 (some 0) (some 77) (some ⟨some [5, 25, 18, 30, -2, 20, 21, 0], 8, 7⟩) =
      .ok (some ⟨some [25, 30, 21], 3, 3⟩) :=
  ⟨by decide, by decide, by decide,
    (C9_extraction ⟨some [5, 25, 18, 30, -2, 20, 21, 0], 8, 7⟩ [5, 25, 18, 30, -2, 20, 21, 0]
      0 77 rfl (by decide) (by decide) (by decide)).1⟩

/-- C9 as stated fails on a buffer of `2 ^ 31` elements (all 25, a valid buffer
of capacity `2 ^ 31`): the `int` counters of the counting loop cannot pass
`INT_MAX = 2 ^ 31 - 1`, so the call has no defined result. -/
theorem C9_counterexample :
    Valid ⟨some (List.replicate 2147483648 25), 2147483648, 2147483648⟩ ∧
    detect_crit_no2 (some 0) (some 0)
        (some ⟨some (List.replicate 2147483648 25), 2147483648, 2147483648⟩) =
      .error .signedOverflow :=
  ⟨⟨Nat.le_refl _, List.length_replicate _ _, by decide⟩,
    detect_crit_no2_overflow (some 0) (some 0) _ (List.replicate 2147483648 25) rfl
      (Nat.le_of_eq (List.length_replicate _ _).symm) (by decide)⟩

/-- C10 (amended). Extraction edge cases: on a non-empty buffer of at most
`INT_MAX` elements, none of them greater than 20, `detect_crit_no2` returns a
non-null buffer with size 0 and capacity 0 whatever `realloc` answers to the
request for 0 bytes (`resize` to 0 reports success also on `NULL`); on a buffer
with `size == 0` it returns `NULL`. -/
theorem C10_extraction_edge_cases (array : DynamicArray) (structJunk : Int)
    (storeReply : Reply) :
    (array.size ≠ 0 → array.size ≤ INT_MAX →
      (∃ blk, array.data = some blk ∧ array.size ≤ blk.length) →
      (∀ x ∈ contents array, x ≤ 20) →
      detect_crit_no2 (some structJunk) storeReply (some array) =
        .ok (some { data := realloc storeReply none 0, capacity := 0, size := 0 })) ∧
    (array.size = 0 → ∀ structReply,
      detect_crit_no2 structReply storeReply (some array) = .ok none) := by
  constructor
  · rintro hne hint ⟨blk, hdata, hstore⟩ hall
    have hwin : (blk.drop 0).take array.size = contents array := by
      simp [contents, store, hdata]
    have hF : (contents array).filter (fun x => decide (x > 20)) = [] := by
      rw [List.filter_eq_nil_iff]
      intro x hx
      have := hall x hx
      simp only [gt_iff_lt, decide_eq_true_eq, not_lt]
      exact this
    have hcount := countCrit_eq blk array.size 0 0 (by omega) (Nat.le_refl 0) (by omega)
    rw [hwin, hF] at hcount
    have hfill := fillCrit_none_found blk array.size 0 0
      { data := realloc storeReply none 0, capacity := 0, size := 0 } (by omega) (by omega)
      (by rw [hwin, hF])
    unfold detect_crit_no2
    simp only [hne, if_false, hdata, hcount, List.length_nil, Nat.add_zero, resize_zero,
      one_ne_zero, hfill]
  · intro h0 structReply
    simp [detect_crit_no2, h0]

theorem C10_extraction_edge_cases_witness :
    ((6 : Nat) ≠ 0 ∧ 6 ≤ INT_MAX ∧
      detect_crit_no2 (some 0) none (some ⟨some [5, 2, 18, 3, -2, 20, 21, 0], 8, 6⟩) =
        .ok (some ⟨none, 0, 0⟩)) ∧
    detect_crit_no2 (some 0) none (some ⟨none, 0, 0⟩) = .ok none :=
  ⟨⟨by decide, by decide,
    (C10_extraction_edge_cases ⟨some [5, 2, 18, 3, -2, 20, 21, 0], 8, 6⟩ 0 none).1
      (by decide) (by decide) ⟨_, rfl, by decide⟩ (by decide)⟩,
    (C10_extraction_edge_cases ⟨none, 0, 0⟩ 0 none).2 rfl (some 0)⟩

/-- C10 as stated fails on a buffer of `2 ^ 31` zeros (a valid, non-empty
buffer with no element above 20): the loop counter `int i` cannot pass
`INT_MAX`, so the call has no defined result instead of an empty buffer. -/
theorem C10_counterexample :
    Valid ⟨some (List.replicate 2147483648 0), 2147483648, 2147483648⟩ ∧
    (∀ x ∈ contents ⟨some (List.replicate 2147483648 0), 2147483648, 2147483648⟩, x ≤ 20) ∧
    detect_crit_no2 (some 0) (some 0)
        (some ⟨some (List.replicate 2147483648 0), 2147483648, 2147483648⟩) =
      .error .signedOverflow :=
  ⟨⟨Nat.le_refl _, List.length_replicate _ _, by decide⟩,
    fun x hx => by
      have h1 : x ∈ List.replicate 2147483648 (0 : Int) := List.mem_of_mem_take hx
      rw [List.eq_of_mem_replicate h1]
      decide,
    detect_crit_no2_overflow (some 0) (some 0) _ (List.replicate 2147483648 0) rfl
      (Nat.le_of_eq (List.length_replicate _ _).symm) (by decide)⟩

/-! ## Truncation by resize -/

/-- C16 (amended). Truncation law for new capacities whose byte count does not
wrap (`k * sizeof(int) ≤ SIZE_MAX`), on a buffer whose first `size` slots lie in
its block: a successful `resize(b, k)` sets the capacity to `k`; for `k < size`
the size becomes `k` and the logical contents are the first `k` original values
in order; for `k ≥ size` the size and all `size` logical values are unchanged.
With the allocation granted the call does succeed. -/
theorem C16_truncation_law (reply : Reply) (array array1 : DynamicArray) (k : Nat)
    (hstore : array.size ≤ (store array).length) (hk : k * sizeofInt ≤ SIZE_MAX)
    (hok : resize reply array k = (1, array1)) :
    array1.capacity = k ∧
    (k < array.size → array1.size = k ∧ contents array1 = (contents array).take k) ∧
    (array.size ≤ k → array1.size = array.size ∧ contents array1 = contents array) ∧
    (∀ junk, (resize (some junk) array k).1 = 1) := by
  have hmain : array1.capacity = k ∧ array1.size = min array.size k ∧
      contents array1 = (contents array).take k := by
    cases reply with
    | none =>
      rcases Nat.eq_zero_or_pos k with h0 | hpos
      · subst h0
        rw [resize_zero] at hok
        simp only [Prod.mk.injEq, true_and] at hok
        subst hok
        simp [contents]
      · rw [resize_fail _ _ hpos] at hok
        simp at hok
    | some junk =>
      rw [resize_ok] at hok
      simp only [Prod.mk.injEq, true_and] at hok
      obtain ⟨blk, hblk, hlen, htake⟩ :=
        realloc_some_length junk array.data (wrapSize (k * sizeofInt))
      rw [wrapSize_of_le hk, Nat.mul_div_cancel _ (by decide)] at hlen htake
      rw [hblk] at hok
      subst hok
      refine ⟨rfl, rfl, ?_⟩
      simp only [contents, store, Option.getD_some]
      have h1 := htake (min array.size k) (by unfold store at hstore; omega) (by omega)
      rw [h1, List.take_take]
      congr 1
      omega
  obtain ⟨hcap, hsize, hcont⟩ := hmain
  refine ⟨hcap, fun hlt => ⟨by omega, hcont⟩, fun hle => ⟨by omega, ?_⟩, fun junk => ?_⟩
  · rw [hcont]
    apply List.take_of_length_le
    simp only [contents, List.length_take]
    omega
  · rw [resize_ok]

theorem C16_truncation_law_witness :
    (3 : Nat) ≤ (store ⟨some [1, 2, 3, 0], 4, 3⟩).length ∧ 2 * sizeofInt ≤ SIZE_MAX ∧
    resize (some 9) ⟨some [1, 2, 3, 0], 4, 3⟩ 2 = (1, ⟨some [1, 2], 2, 2⟩) ∧
    ((2 : Nat) = 2 ∧
      ((2 : Nat) < 3 → (2 : Nat) = 2 ∧
        contents ⟨some [1, 2], 2, 2⟩ = (contents ⟨some [1, 2, 3, 0], 4, 3⟩).take 2) ∧
      ((3 : Nat) ≤ 2 → (2 : Nat) = 3 ∧
        contents ⟨some [1, 2], 2, 2⟩ = contents ⟨some [1, 2, 3, 0], 4, 3⟩) ∧
      (∀ junk, (resize (some junk) ⟨some [1, 2, 3, 0], 4, 3⟩ 2).1 = 1)) :=
  ⟨by decide, by decide, by decide,
    C16_truncation_law (some 9) ⟨some [1, 2, 3, 0], 4, 3⟩ ⟨some [1, 2], 2, 2⟩ 2
      (by decide) (by decide) (by decide)⟩

/-- C16 as stated fails for `k ≥ size` when the byte count wraps: resizing the
buffer `[1, 2, 3]` (capacity 4) to `k = 2 ^ 62 + 1` asks `realloc` for
`(2 ^ 62 + 1) * 4 mod 2 ^ 64 = 4` bytes; the call succeeds, the size stays 3 and
the capacity becomes `k`, but the block now holds one int, so the logical
values at indices 1 and 2 are gone. -/
theorem C16_counterexample :
    resize (some 0) ⟨some [1, 2, 3, 0], 4, 3⟩ (2 ^ 62 + 1) =
      (1, ⟨some [1], 2 ^ 62 + 1, 3⟩) ∧
    (3 : Nat) ≤ 2 ^ 62 + 1 ∧
    contents ⟨some [1], 2 ^ 62 + 1, 3⟩ ≠ contents ⟨some [1, 2, 3, 0], 4, 3⟩ ∧
    dynamic_array_get (some ⟨some [1, 2, 3, 0], 4, 3⟩) 1 = .ok 2 ∧
    dynamic_array_get (some ⟨some [1], 2 ^ 62 + 1, 3⟩) 1 = .error .outOfBlock := by
  decide

/-! ## The capacity shape -/

theorem capShape_zero : capShape 0 = 0 := by simp [capShape]

theorem capShape_pos {n : Nat} (h : 0 < n) : capShape n = 2 ^ Nat.clog 2 n := by
  simp [capShape, Nat.pos_iff_ne_zero.mp h]

theorem le_capShape (n : Nat) : n ≤ capShape n := by
  rcases Nat.eq_zero_or_pos n with h | h
  · subst h; simp
  · rw [capShape_pos h]; exact Nat.le_pow_clog (by decide) n

theorem capShape_lt_two_mul {n : Nat} (h : 0 < n) : capShape n < 2 * n := by
  rw [capShape_pos h]
  rcases Nat.lt_or_ge 1 n with h1 | h1
  · have h2 := Nat.pow_pred_clog_lt_self (b := 2) (by decide) h1
    have h3 : 0 < Nat.clog 2 n := Nat.clog_pos (by decide) h1
    have h4 : Nat.clog 2 n = (Nat.clog 2 n).pred + 1 := by
      rw [Nat.pred_eq_sub_one]; omega
    rw [h4, Nat.pow_succ]
    omega
  · have : n = 1 := by omega
    subst this
    simp [Nat.clog_one_right]

/-- The doubling step of `dynamic_array_append` follows the shape. -/
theorem capShape_succ (s : Nat) :
    capShape (s + 1) =
      if s = capShape s then (if capShape s = 0 then 1 else 2 * capShape s)
      else capShape s := by
  rcases Nat.eq_zero_or_pos s with h0 | hpos
  · subst h0
    simp [capShape, Nat.clog_one_right]
  · have hne : capShape s ≠ 0 := by
      have := le_capShape s; omega
    rw [capShape_pos (Nat.succ_pos s)]
    by_cases hfull : s = capShape s
    · simp only [hfull.symm, if_true]
      have hs0 : s ≠ 0 := by omega
      simp only [hs0, if_false]
      rw [capShape_pos hpos] at hfull
      have h1 : Nat.clog 2 (s + 1) = Nat.clog 2 s + 1 := by
        apply Nat.le_antisymm
        · apply (Nat.le_pow_iff_clog_le (by decide)).mp
          rw [Nat.pow_succ]; omega
        · have : 2 ^ Nat.clog 2 s < s + 1 := by omega
          exact (Nat.pow_lt_iff_lt_clog (by decide)).mp this
      rw [h1, Nat.pow_succ]
      omega
    · simp only [hfull, if_false]
      rw [capShape_pos hpos] at hfull ⊢
      have hle := Nat.le_pow_clog (b := 2) (by decide) s
      congr 1
      apply Nat.le_antisymm
      · apply (Nat.le_pow_iff_clog_le (by decide)).mp
        omega
      · exact Nat.clog_mono_right 2 (Nat.le_succ s)

/-! ## Successful appends keep the shape -/

theorem create_zero (structJunk : Int) (storeReply : Reply) :
    dynamic_array_create (some structJunk) storeReply 0 =
      some { data := none, capacity := 0, size := 0 } := by
  simp [dynamic_array_create]

theorem valid_empty : Valid { data := none, capacity := 0, size := 0 } :=
  ⟨Nat.le_refl _, rfl, by decide⟩

theorem appendAll_cons_ok {replies : List Reply} {array : Option DynamicArray} {v : Int}
    {vs : List Int} {rcs : List Int} {array2 : Option DynamicArray}
    (h : appendAll replies array (v :: vs) = .ok (rcs, array2)) :
    ∃ rc array1 rest, dynamic_array_append (replies.headD none) array v = .ok (rc, array1) ∧
      appendAll replies.tail array1 vs = .ok (rest, array2) ∧ rcs = rc :: rest := by
  cases happ : dynamic_array_append (replies.headD none) array v with
  | error e => rw [appendAll, happ] at h; simp at h
  | ok p =>
    obtain ⟨rc, a1⟩ := p
    cases hall : appendAll replies.tail a1 vs with
    | error e => rw [appendAll, happ] at h; simp only [hall] at h; simp at h
    | ok q =>
      obtain ⟨rest, a2⟩ := q
      rw [appendAll, happ] at h
      simp only [hall, Except.ok.injEq, Prod.mk.injEq] at h
      obtain ⟨h1, h2⟩ := h
      subst h2
      exact ⟨rc, a1, rest, rfl, hall, h1.symm⟩

/-- The state kept by successful appends: `size ≤ capacity`, the capacity
follows the shape, and the block is one a `size_t` byte count can describe. -/
theorem append_ok_shape {reply : Reply} {array array1 : DynamicArray} {value : Int}
    (hinv : array.size ≤ array.capacity) (hshape : array.capacity = capShape array.size)
    (hblk : (store array).length * sizeofInt ≤ SIZE_MAX)
    (h : dynamic_array_append reply (some array) value = .ok (1, some array1)) :
    array1.size = array.size + 1 ∧ array1.size ≤ array1.capacity ∧
    array1.capacity = capShape array1.size ∧
    (store array1).length * sizeofInt ≤ SIZE_MAX ∧
    array1.capacity = (if array.size = array.capacity then
      (if array.capacity = 0 then 1 else 2 * array.capacity) else array.capacity) := by
  have hsm := size_max_eq
  rcases append_ok_cases h with ⟨hrc, -, -⟩ | ⟨-, hne, blk, hd, hlt, ha⟩ |
    ⟨-, hfull, junk, blk, hreply, hre, hlt, hle, ha⟩
  · omega
  · simp only [Option.some.injEq] at ha
    have hlen : (store array).length = blk.length := by simp [store, hd]
    have hw : wrapSize (array.size + 1) = array.size + 1 :=
      wrapSize_of_le (by unfold sizeofInt at hblk; omega)
    rw [hw] at ha
    subst ha
    refine ⟨rfl, by simp only; omega, ?_, ?_, by simp [hne]⟩
    · simp only
      rw [capShape_succ, ← hshape]
      simp [hne]
    · simpa [store, hlen] using (hlen ▸ hblk)
  · simp only [Option.some.injEq] at ha
    subst hreply
    obtain ⟨blk1, hblk1, hlen1, -⟩ := realloc_some_length junk array.data
      (wrapSize ((if array.capacity = 0 then 1 else wrapSize (array.capacity * 2)) * sizeofInt))
    rw [hre] at hblk1
    simp only [Option.some.injEq] at hblk1
    subst hblk1
    have hbytes : blk.length * sizeofInt ≤ SIZE_MAX := by
      rw [hlen1]
      have := wrapSize_lt ((if array.capacity = 0 then 1 else wrapSize (array.capacity * 2))
        * sizeofInt)
      have h2 := Nat.div_mul_le_self (wrapSize ((if array.capacity = 0 then 1
        else wrapSize (array.capacity * 2)) * sizeofInt)) sizeofInt
      omega
    have hN : (if array.capacity = 0 then 1 else wrapSize (array.capacity * 2)) =
        if array.capacity = 0 then 1 else 2 * array.capacity := by
      by_cases h0 : array.capacity = 0
      · simp [h0]
      · simp only [h0, if_false] at hle ⊢
        unfold wrapSize at hle ⊢
        rw [size_max_eq] at hle ⊢
        omega
    rw [hN] at ha hle
    have hw : wrapSize (array.size + 1) = array.size + 1 :=
      wrapSize_of_le (by unfold sizeofInt at hbytes; omega)
    rw [hw] at ha
    subst ha
    refine ⟨rfl, by simp only; omega, ?_, ?_, by simp [hfull]⟩
    · simp only
      rw [capShape_succ, ← hshape]
      simp [hfull]
    · simpa [store] using hbytes

theorem append_ok_some {reply : Reply} {array : DynamicArray} {value : Int}
    {array1 : Option DynamicArray}
    (h : dynamic_array_append reply (some array) value = .ok (1, array1)) :
    ∃ a1, array1 = some a1 := by
  rcases append_ok_cases h with ⟨hrc, -, -⟩ | ⟨-, -, blk, -, -, ha⟩ |
    ⟨-, -, junk, blk, -, -, -, -, ha⟩
  · omega
  · exact ⟨_, ha⟩
  · exact ⟨_, ha⟩

/-- A run of appends that all return 1, from a buffer whose capacity follows
the shape: final size and capacity, and the account of the growth steps. -/
theorem run_of_ok (vs : List Int) :
    ∀ (replies : List Reply) (array array1 : DynamicArray) (rcs : List Int),
      array.size ≤ array.capacity → array.capacity = capShape array.size →
      (store array).length * sizeofInt ≤ SIZE_MAX →
      appendAll replies (some array) vs = .ok (rcs, some array1) →
      (∀ rc ∈ rcs, rc = 1) →
      ∃ sizes, growthSizes replies (some array) vs = .ok sizes ∧
        array1.size = array.size + vs.length ∧
        array1.capacity = capShape array1.size ∧
        (∀ s, s ∈ sizes ↔ array.size ≤ s ∧ s < array.size + vs.length ∧ s = capShape s) ∧
        sizes.sum + max 1 array.capacity = max 1 array1.capacity ∧
        max 1 (2 * array1.capacity) = 2 ^ sizes.length * max 1 (2 * array.capacity) := by
  induction vs with
  | nil =>
    intro replies array array1 rcs _ hshape _ hall _
    simp only [appendAll, Except.ok.injEq, Prod.mk.injEq, Option.some.injEq] at hall
    obtain ⟨-, rfl⟩ := hall
    refine ⟨[], rfl, rfl, hshape, ?_, by simp, by simp⟩
    intro s
    simp only [List.not_mem_nil, List.length_nil, Nat.add_zero, false_iff]
    omega
  | cons v vs ih =>
    intro replies array array2 rcs hinv hshape hblk hall hrcs
    obtain ⟨rc, a1opt, rest, happ, hall1, rfl⟩ := appendAll_cons_ok hall
    have hrc : rc = 1 := hrcs rc (List.mem_cons_self _ _)
    subst hrc
    obtain ⟨a1, rfl⟩ := append_ok_some happ
    obtain ⟨hs1, hinv1, hshape1, hblk1, hcap1⟩ := append_ok_shape hinv hshape hblk happ
    obtain ⟨gs, hgs, hs2, hshape2, hmem, hsum, hpow⟩ := ih replies.tail a1 array2 rest
      hinv1 hshape1 hblk1 hall1 (fun rc h => hrcs rc (List.mem_cons_of_mem _ h))
    by_cases hfull : array.size = array.capacity
    · have hne : a1.capacity ≠ array.capacity := by
        rw [hcap1]; simp only [hfull, if_true]; split <;> omega
      refine ⟨array.size :: gs, ?_, ?_, hshape2, ?_, ?_, ?_⟩
      · rw [growthSizes, happ]
        simp only [hgs, dynamic_array_capacity, dynamic_array_size, ne_eq, hne,
          not_false_eq_true, if_true]
      · rw [hs2, hs1]; simp only [List.length_cons]; omega
      · intro s
        simp only [List.mem_cons, hmem, hs1, List.length_cons]
        constructor
        · rintro (h | h)
          · subst h; exact ⟨Nat.le_refl _, by omega, by rw [← hshape]; exact hfull⟩
          · exact ⟨by omega, by omega, h.2.2⟩
        · rintro ⟨h1, h2, h3⟩
          by_cases hs : s = array.size
          · exact Or.inl hs
          · exact Or.inr ⟨by omega, by omega, h3⟩
      · simp only [List.sum_cons]
        rw [← hsum, hcap1]
        simp only [hfull, if_true]
        split <;> omega
      · rw [hpow, hcap1, List.length_cons, Nat.pow_succ]
        simp only [hfull, if_true]
        by_cases h0 : array.capacity = 0
        · simp [h0]
        · simp only [h0, if_false]
          have e1 : max 1 (2 * (2 * array.capacity)) = 2 * (2 * array.capacity) := by omega
          have e2 : max 1 (2 * array.capacity) = 2 * array.capacity := by omega
          rw [e1, e2]
          ring
    · have heq : a1.capacity = array.capacity := by
        rw [hcap1]; simp [hfull]
      refine ⟨gs, ?_, ?_, hshape2, ?_, ?_, ?_⟩
      · rw [growthSizes, happ]
        simp only [hgs, dynamic_array_capacity, heq, ne_eq, not_true_eq_false, if_false]
      · rw [hs2, hs1]; simp only [List.length_cons]; omega
      · intro s
        simp only [hmem, hs1, List.length_cons]
        constructor
        · rintro ⟨h1, h2, h3⟩
          exact ⟨by omega, by omega, h3⟩
        · rintro ⟨h1, h2, h3⟩
          refine ⟨?_, by omega, h3⟩
          by_cases hs : s = array.size
          · subst hs; rw [← hshape] at h3; exact absurd h3 hfull
          · omega
      · rw [← hsum, heq]
      · rw [hpow, heq]

/-! ## Capacity shape and amortised cost -/

theorem capShape_fixed_iff (s : Nat) : s = capShape s ↔ s = 0 ∨ ∃ k, s = 2 ^ k := by
  constructor
  · intro h
    rcases Nat.eq_zero_or_pos s with h0 | hpos
    · exact Or.inl h0
    · rw [capShape_pos hpos] at h
      exact Or.inr ⟨_, h⟩
  · rintro (h0 | ⟨k, hk⟩)
    · subst h0; simp [capShape]
    · subst hk
      rw [capShape_pos (Nat.pos_pow_of_pos k (by decide)), Nat.clog_pow 2 k (by decide)]

/-- A granted run from `dynamic_array_create(0)` succeeds when `2 * n` ints do
not exceed `SIZE_MAX` bytes. -/
theorem run_from_empty_ok (vs junks : List Int) (structJunk : Int) (storeReply : Reply)
    (hjunks : junks.length = vs.length) (hvs : 2 * vs.length * sizeofInt ≤ SIZE_MAX) :
    ∃ array,
      appendAll (junks.map some) (dynamic_array_create (some structJunk) storeReply 0) vs =
        .ok (List.replicate vs.length 1, some array) := by
  obtain ⟨a1, hall, -, -, -⟩ := appendAll_valid vs junks
    { data := none, capacity := 0, size := 0 } hjunks valid_empty (by simpa using hvs)
  exact ⟨a1, by rw [create_zero]; exact hall⟩

/-- A run from `dynamic_array_create(0)` in which every append returns 1. -/
theorem run_from_empty_of_ok (vs : List Int) (replies : List Reply) (structJunk : Int)
    (storeReply : Reply) (rcs : List Int) (array : DynamicArray)
    (hall : appendAll replies (dynamic_array_create (some structJunk) storeReply 0) vs =
      .ok (rcs, some array))
    (hrcs : ∀ rc ∈ rcs, rc = 1) :
    ∃ sizes, growthSizes replies (dynamic_array_create (some structJunk) storeReply 0) vs =
        .ok sizes ∧
      array.size = vs.length ∧ array.capacity = capShape vs.length ∧
      (∀ s, s ∈ sizes ↔ s < vs.length ∧ s = capShape s) ∧
      sizes.sum + 1 = max 1 array.capacity ∧
      max 1 (2 * array.capacity) = 2 ^ sizes.length := by
  rw [create_zero] at hall ⊢
  obtain ⟨gs, hgs, hs, hshape, hmem, hsum, hpow⟩ := run_of_ok vs replies
    { data := none, capacity := 0, size := 0 } array rcs (Nat.le_refl _)
    (by simp [capShape]) (by simp [store]) hall hrcs
  simp only [Nat.zero_add] at hs hmem
  rw [hs] at hshape
  refine ⟨gs, hgs, hs, hshape, fun s => ?_, by simpa using hsum, by simpa using hpow⟩
  rw [hmem]
  simp

/-- C17. Capacity shape: starting from `dynamic_array_create(0)`, after `n`
appends that all return 1 the capacity is 0 if `n == 0` and otherwise the
smallest power of two that is `≥ n`, and the appends that triggered growth are
exactly those numbered `m` with `1 ≤ m ≤ n` and `m = 1` or `m = 2 ^ k + 1`.
Such a run exists whenever every allocation is granted and `2 * n` ints do not
exceed `SIZE_MAX` bytes. -/
theorem C17_capacity_shape (vs : List Int) (replies : List Reply) (structJunk : Int)
    (storeReply : Reply) :
    (∀ rcs array,
      appendAll replies (dynamic_array_create (some structJunk) storeReply 0) vs =
        .ok (rcs, some array) →
      (∀ rc ∈ rcs, rc = 1) →
      (vs.length = 0 → array.capacity = 0) ∧
      (0 < vs.length → ∃ k, array.capacity = 2 ^ k ∧ vs.length ≤ 2 ^ k ∧
        ∀ j, vs.length ≤ 2 ^ j → 2 ^ k ≤ 2 ^ j) ∧
      ∃ sizes,
        growthSizes replies (dynamic_array_create (some structJunk) storeReply 0) vs =
          .ok sizes ∧
        ∀ m, (∃ s ∈ sizes, m = s + 1) ↔
          (1 ≤ m ∧ m ≤ vs.length ∧ (m = 1 ∨ ∃ k, m = 2 ^ k + 1))) ∧
    (∀ junks : List Int, replies = junks.map some → junks.length = vs.length →
      2 * vs.length * sizeofInt ≤ SIZE_MAX →
      ∃ array,
        appendAll replies (dynamic_array_create (some structJunk) storeReply 0) vs =
          .ok (List.replicate vs.length 1, some array)) := by
  constructor
  · intro rcs array hall hrcs
    obtain ⟨gs, hgs, -, hshape, hmem, -, -⟩ :=
      run_from_empty_of_ok vs replies structJunk storeReply rcs array hall hrcs
    refine ⟨fun h0 => by rw [hshape, h0, capShape_zero], fun hpos => ?_, gs, hgs, fun m => ?_⟩
    · refine ⟨Nat.clog 2 vs.length, by rw [hshape, capShape_pos hpos],
        Nat.le_pow_clog (by decide) _, fun j hj => ?_⟩
      exact Nat.pow_le_pow_right (by decide) ((Nat.le_pow_iff_clog_le (by decide)).mp hj)
    · constructor
      · rintro ⟨s, hs, rfl⟩
        obtain ⟨hlt, hfix⟩ := (hmem s).mp hs
        refine ⟨by omega, by omega, ?_⟩
        rcases (capShape_fixed_iff s).mp hfix with h0 | ⟨k, hk⟩
        · exact Or.inl (by omega)
        · exact Or.inr ⟨k, by omega⟩
      · rintro ⟨h1, h2, h3⟩
        refine ⟨m - 1, (hmem (m - 1)).mpr ⟨by omega, (capShape_fixed_iff _).mpr ?_⟩, by omega⟩
        rcases h3 with h | ⟨k, hk⟩
        · exact Or.inl (by omega)
        · exact Or.inr ⟨k, by omega⟩
  · intro junks hrep hlen hvs
    subst hrep
    exact run_from_empty_ok vs junks structJunk storeReply hlen hvs

theorem C17_capacity_shape_witness :
    appendAll ([0, 0, 0, 0, 0].map some) (dynamic_array_create (some 0) none 0)
        [5, 25, 18, 30, -2] =
      .ok ([1, 1, 1, 1, 1], some ⟨some [5, 25, 18, 30, -2, 0, 0, 0], 8, 5⟩) ∧
    (∀ rc ∈ [1, 1, 1, 1, 1], rc = (1 : Int)) ∧
    growthSizes ([0, 0, 0, 0, 0].map some) (dynamic_array_create (some 0) none 0)
        [5, 25, 18, 30, -2] = .ok [0, 1, 2, 4] ∧
    (0 < [5, 25, 18, 30, -2].length → ∃ k, (8 : Nat) = 2 ^ k ∧
      [5, 25, 18, 30, -2].length ≤ 2 ^ k ∧
      ∀ j, [5, 25, 18, 30, -2].length ≤ 2 ^ j → 2 ^ k ≤ 2 ^ j) :=
  ⟨by decide, by decide, by decide,
    ((C17_capacity_shape [5, 25, 18, 30, -2] ([0, 0, 0, 0, 0].map some) 0 none).1
      [1, 1, 1, 1, 1] ⟨some [5, 25, 18, 30, -2, 0, 0, 0], 8, 5⟩ (by decide) (by decide)).2.1⟩

/-- C18. Amortised append: starting from `dynamic_array_create(0)`, over any
run of `n ≥ 1` appends that all return 1, the sizes at the growth steps (the
elements each reallocation carried over) add up to less than `2 * n`, and
there are at most `floor(log2 n) + 2` growth steps.  Such a run exists whenever
every allocation is granted and `2 * n` ints do not exceed `SIZE_MAX` bytes. -/
theorem C18_amortized_append (vs : List Int) (replies : List Reply) (structJunk : Int)
    (storeReply : Reply) (hn : 1 ≤ vs.length) :
    (∀ rcs array,
      appendAll replies (dynamic_array_create (some structJunk) storeReply 0) vs =
        .ok (rcs, some array) →
      (∀ rc ∈ rcs, rc = 1) →
      ∃ sizes,
        growthSizes replies (dynamic_array_create (some structJunk) storeReply 0) vs =
          .ok sizes ∧
        sizes.sum < 2 * vs.length ∧ sizes.length ≤ Nat.log 2 vs.length + 2) ∧
    (∀ junks : List Int, replies = junks.map some → junks.length = vs.length →
      2 * vs.length * sizeofInt ≤ SIZE_MAX →
      ∃ array,
        appendAll replies (dynamic_array_create (some structJunk) storeReply 0) vs =
          .ok (List.replicate vs.length 1, some array)) := by
  constructor
  · intro rcs array hall hrcs
    obtain ⟨gs, hgs, -, hshape, -, hsum, hpow⟩ :=
      run_from_empty_of_ok vs replies structJunk storeReply rcs array hall hrcs
    have hlt : array.capacity < 2 * vs.length := by
      rw [hshape]; exact capShape_lt_two_mul hn
    have hge : vs.length ≤ array.capacity := by
      rw [hshape]; exact le_capShape _
    refine ⟨gs, hgs, by omega, ?_⟩
    have h1 : 2 ^ gs.length < 2 ^ (Nat.log 2 vs.length + 3) := by
      have h2 := Nat.lt_pow_succ_log_self (b := 2) (by decide) vs.length
      have h3 : 2 ^ (Nat.log 2 vs.length + 3) = 4 * 2 ^ (Nat.log 2 vs.length).succ := by
        rw [Nat.succ_eq_add_one, Nat.pow_succ, Nat.pow_succ, Nat.pow_succ]; ring
      rw [h3, ← hpow]
      omega
    have h4 := (Nat.pow_lt_pow_iff_right (a := 2) (by decide)).mp h1
    omega
  · intro junks hrep hlen hvs
    subst hrep
    exact run_from_empty_ok vs junks structJunk storeReply hlen hvs

theorem C18_amortized_append_witness :
    1 ≤ [5, 25, 18, 30, -2].length ∧
    appendAll ([0, 0, 0, 0, 0].map some) (dynamic_array_create (some 0) none 0)
        [5, 25, 18, 30, -2] =
      .ok ([1, 1, 1, 1, 1], some ⟨some [5, 25, 18, 30, -2, 0, 0, 0], 8, 5⟩) ∧
    (∀ rc ∈ [1, 1, 1, 1, 1], rc = (1 : Int)) ∧
    ∃ sizes,
      growthSizes ([0, 0, 0, 0, 0].map some) (dynamic_array_create (some 0) none 0)
          [5, 25, 18, 30, -2] = .ok sizes ∧
      sizes.sum < 2 * [5, 25, 18, 30, -2].length ∧
      sizes.length ≤ Nat.log 2 [5, 25, 18, 30, -2].length + 2 :=
  ⟨by decide, by decide, by decide,
    (C18_amortized_append [5, 25, 18, 30, -2] ([0, 0, 0, 0, 0].map some) 0 none
      (by decide)).1 [1, 1, 1, 1, 1] ⟨some [5, 25, 18, 30, -2, 0, 0, 0], 8, 5⟩
      (by decide) (by decide)⟩

/-! ## In-bounds write -/

/-- A failed growth step hands the buffer back untouched. -/
theorem C7_failure_atomicity_aux (array : DynamicArray) (value : Int)
    (hfull : array.size = array.capacity)
    (hfit : array.capacity * sizeofInt ≤ SIZE_MAX) :
    dynamic_array_append none (some array) value = .ok (0, some array) := by
  have hpos : 0 < (if array.capacity = 0 then 1 else wrapSize (array.capacity * 2)) := by
    by_cases h0 : array.capacity = 0
    · simp [h0]
    · simp only [h0, if_false]
      unfold wrapSize
      unfold sizeofInt at hfit
      rw [size_max_eq] at hfit ⊢
      omega
  unfold dynamic_array_append
  simp only [hfull, if_true]
  rw [resize_fail _ _ hpos]
  simp

end DynArr
namespace DynArr

/-- C19 (amended). In-bounds write: on a valid buffer (`size ≤ capacity`, a
block of exactly `capacity` ints) with `2 * capacity * sizeof(int) ≤ SIZE_MAX`,
`dynamic_array_append` never leaves defined behaviour, whatever the allocator
answers: it returns 0 with the buffer unchanged, or it returns 1 and the index
it wrote at, the old `size`, is strictly below the capacity and the block
length at the time of the write. -/
theorem C19_in_bounds_write (reply : Reply) (array : DynamicArray) (value : Int)
    (hv : Valid array) (hroom : 2 * array.capacity * sizeofInt ≤ SIZE_MAX) :
    ∃ rc array1, dynamic_array_append reply (some array) value = .ok (rc, some array1) ∧
      (rc = 0 ∨ rc = 1) ∧
      (rc = 0 → array1 = array) ∧
      (rc = 1 → array.size < array1.capacity ∧ array.size < (store array1).length ∧
        dynamic_array_get (some array1) array.size = .ok value) := by
  have hroom1 : array.size = array.capacity →
      (if array.capacity = 0 then 1 else 2 * array.capacity) * sizeofInt ≤ SIZE_MAX := by
    intro _
    split
    · decide
    · exact hroom
  by_cases hcase : array.size = array.capacity ∧ reply = none
  · obtain ⟨hfull, rfl⟩ := hcase
    have h7 := (C7_failure_atomicity_aux array value hfull hv.2.2)
    exact ⟨0, array, h7, Or.inl rfl, fun _ => rfl, fun h => by omega⟩
  · have hreply : array.size = array.capacity → ∃ junk, reply = some junk := by
      intro hfull
      cases reply with
      | none => exact absurd ⟨hfull, rfl⟩ hcase
      | some junk => exact ⟨junk, rfl⟩
    obtain ⟨a1, happ, hv1, hcont, hs1, -⟩ := append_valid reply array value hv hreply hroom1
    refine ⟨1, a1, happ, Or.inr rfl, fun h => by omega, fun _ => ⟨?_, ?_, ?_⟩⟩
    · have := hv1.1; omega
    · have := hv1.1; have := hv1.2.1; omega
    · have hlt : array.size < (store a1).length := by
        have := hv1.1; have := hv1.2.1; omega
      have hget : (contents a1)[array.size]? = some value := by
        rw [hcont]
        have hlen : (contents array).length = array.size := by
          simp only [contents, List.length_take]
          have := hv.1; have := hv.2.1; omega
        rw [List.getElem?_append_right (by omega), hlen]
        simp
      unfold contents at hget
      rw [List.getElem?_take_of_lt (by omega)] at hget
      unfold dynamic_array_get readSlot
      cases hd : a1.data with
      | none => simp [store, hd] at hlt
      | some blk =>
        simp only [store, hd, Option.getD_some] at hget
        simp [hd, hget]

theorem C19_in_bounds_write_witness :
    Valid ⟨some [7, 8], 2, 2⟩ ∧ 2 * 2 * sizeofInt ≤ SIZE_MAX ∧
    dynamic_array_append (some 0) (some ⟨some [7, 8], 2, 2⟩) 9 =
      .ok (1, some ⟨some [7, 8, 9, 0], 4, 3⟩) ∧
    ∃ rc array1, dynamic_array_append (some 0) (some ⟨some [7, 8], 2, 2⟩) 9 =
        .ok (rc, some array1) ∧
      (rc = 0 ∨ rc = 1) ∧
      (rc = 0 → array1 = ⟨some [7, 8], 2, 2⟩) ∧
      (rc = 1 → 2 < array1.capacity ∧ 2 < (store array1).length ∧
        dynamic_array_get (some array1) 2 = .ok 9) :=
  ⟨by decide, by decide, by decide,
    C19_in_bounds_write (some 0) ⟨some [7, 8], 2, 2⟩ 9 (by decide) (by decide)⟩

/-- C19 as stated fails: the full, valid buffer of `2 ^ 61 + 1` ints has
`size ≤ capacity` and `2 * capacity = 2 ^ 62 + 2 ≤ SIZE_MAX`, but the byte count
`(2 ^ 62 + 2) * 4` of the growth step wraps to 8; the granted block holds two
ints, the index `size = 2 ^ 61 + 1` is below the new capacity and yet outside
the block, and the write leaves defined behaviour. -/
theorem C19_counterexample :
    Valid ⟨some (List.replicate (2 ^ 61 + 1) 0), 2 ^ 61 + 1, 2 ^ 61 + 1⟩ ∧
    2 * (2 ^ 61 + 1) ≤ SIZE_MAX ∧
    (resize (some 0) ⟨some (List.replicate (2 ^ 61 + 1) 0), 2 ^ 61 + 1, 2 ^ 61 + 1⟩
      (2 ^ 62 + 2)).1 = 1 ∧
    (resize (some 0) ⟨some (List.replicate (2 ^ 61 + 1) 0), 2 ^ 61 + 1, 2 ^ 61 + 1⟩
      (2 ^ 62 + 2)).2.capacity = 2 ^ 62 + 2 ∧
    dynamic_array_append (some 0)
        (some ⟨some (List.replicate (2 ^ 61 + 1) 0), 2 ^ 61 + 1, 2 ^ 61 + 1⟩) 7 =
      .error .outOfBlock := by
  refine ⟨⟨Nat.le_refl _, List.length_replicate _ _, by decide⟩, by decide, ?_, ?_, ?_⟩
  · decide
  · decide
  · decide

/-! ## Rounding to binary32 -/

theorem roundHalfEven_floor_le (x : ℚ) : ⌊x⌋ ≤ roundHalfEven x := by
  unfold roundHalfEven
  split_ifs <;> omega

theorem roundHalfEven_le_floor_succ (x : ℚ) : roundHalfEven x ≤ ⌊x⌋ + 1 := by
  unfold roundHalfEven
  split_ifs <;> omega

theorem roundHalfEven_intCast (k : ℤ) : roundHalfEven (k : ℚ) = k := by
  unfold roundHalfEven
  simp

theorem roundHalfEven_mono {x y : ℚ} (h : x ≤ y) : roundHalfEven x ≤ roundHalfEven y := by
  rcases lt_or_eq_of_le (Int.floor_mono h) with hlt | heq
  · have h1 := roundHalfEven_le_floor_succ x
    have h2 := roundHalfEven_floor_le y
    omega
  · have hfr : Int.fract x ≤ Int.fract y := by
      unfold Int.fract
      rw [heq]
      linarith
    unfold roundHalfEven
    rw [heq]
    split_ifs <;> first | omega | (exfalso; linarith)

theorem ulpBinary32_pos (q : ℚ) : 0 < ulpBinary32 q := by
  unfold ulpBinary32
  positivity

theorem roundBinary32_of_pos {q : ℚ} (hq : 0 < q) :
    roundBinary32 q = ((roundHalfEven (q / ulpBinary32 q) : ℤ) : ℚ) * ulpBinary32 q := by
  unfold roundBinary32
  rw [if_neg (ne_of_gt hq), if_neg (not_lt.mpr (le_of_lt hq)), abs_of_pos hq, one_mul]

theorem ulpBinary32_neg (q : ℚ) : ulpBinary32 (-q) = ulpBinary32 q := by
  unfold ulpBinary32
  rw [abs_neg]

theorem roundBinary32_neg (q : ℚ) : roundBinary32 (-q) = -roundBinary32 q := by
  rcases lt_trichotomy q 0 with hq | hq | hq
  · have hpos : 0 < -q := by linarith
    unfold roundBinary32
    rw [if_neg (ne_of_gt hpos), if_neg (not_lt.mpr (le_of_lt hpos)), if_neg (ne_of_lt hq),
      if_pos hq, ulpBinary32_neg, abs_neg]
    ring
  · subst hq; simp [roundBinary32]
  · have hneg : -q < 0 := by linarith
    unfold roundBinary32
    rw [if_neg (ne_of_lt hneg), if_pos hneg, if_neg (ne_of_gt hq),
      if_neg (not_lt.mpr (le_of_lt hq)), ulpBinary32_neg, abs_neg]
    ring

theorem roundBinary32_zero : roundBinary32 0 = 0 := by
  simp [roundBinary32]

theorem roundBinary32_nonneg {q : ℚ} (hq : 0 < q) : 0 ≤ roundBinary32 q := by
  rw [roundBinary32_of_pos hq]
  have hu := ulpBinary32_pos q
  have h0 : (0 : ℤ) ≤ roundHalfEven (q / ulpBinary32 q) := by
    have := roundHalfEven_mono (show (0 : ℚ) ≤ q / ulpBinary32 q by positivity)
    have h1 : roundHalfEven (0 : ℚ) = 0 := by
      have := roundHalfEven_intCast 0
      simpa using this
    omega
  have : (0 : ℚ) ≤ ((roundHalfEven (q / ulpBinary32 q) : ℤ) : ℚ) := by exact_mod_cast h0
  positivity

theorem two_pow_24_mul (E : ℤ) :
    (((2 : ℤ) ^ 24 : ℤ) : ℚ) * 2 ^ (E - 23) = (2 : ℚ) ^ (E + 1) := by
  have h : (((2 : ℤ) ^ 24 : ℤ) : ℚ) = (2 : ℚ) ^ (24 : ℤ) := by norm_num
  rw [h, ← zpow_add₀ (by norm_num : (2 : ℚ) ≠ 0)]
  congr 1
  ring

theorem two_pow_23_mul (E : ℤ) :
    (((2 : ℤ) ^ 23 : ℤ) : ℚ) * 2 ^ (E - 23) = (2 : ℚ) ^ E := by
  have h : (((2 : ℤ) ^ 23 : ℤ) : ℚ) = (2 : ℚ) ^ (23 : ℤ) := by norm_num
  rw [h, ← zpow_add₀ (by norm_num : (2 : ℚ) ≠ 0)]
  congr 1
  ring

/-- Rounding to binary32 is monotone on positive rationals. -/
theorem roundBinary32_mono_pos {p q : ℚ} (hp : 0 < p) (hpq : p ≤ q) :
    roundBinary32 p ≤ roundBinary32 q := by
  have hq : 0 < q := lt_of_lt_of_le hp hpq
  rw [roundBinary32_of_pos hp, roundBinary32_of_pos hq]
  have hlog : Int.log 2 p ≤ Int.log 2 q := Int.log_mono_right hp hpq
  have hp1 : (2 : ℚ) ^ Int.log 2 p ≤ p := by
    have := Int.zpow_log_le_self (b := 2) (r := p) (by decide) hp
    simpa using this
  have hp2 : p < (2 : ℚ) ^ (Int.log 2 p + 1) := by
    have := Int.lt_zpow_succ_log_self (b := 2) (by decide) p
    simpa using this
  have hq1 : (2 : ℚ) ^ Int.log 2 q ≤ q := by
    have := Int.zpow_log_le_self (b := 2) (r := q) (by decide) hq
    simpa using this
  unfold ulpBinary32
  rw [abs_of_pos hp, abs_of_pos hq]
  generalize hE1 : max (Int.log 2 p) (-126) = E1
  generalize hE2 : max (Int.log 2 q) (-126) = E2
  have hE : E1 ≤ E2 := by rw [← hE1, ← hE2]; exact max_le_max hlog (le_refl _)
  have hu1 : (0 : ℚ) < 2 ^ (E1 - 23) := by positivity
  have hu2 : (0 : ℚ) < 2 ^ (E2 - 23) := by positivity
  rcases eq_or_lt_of_le hE with heq | hlt
  · subst heq
    have hdiv : p / 2 ^ (E1 - 23) ≤ q / 2 ^ (E1 - 23) := by
      exact div_le_div_of_nonneg_right hpq (le_of_lt hu1)
    have := roundHalfEven_mono hdiv
    have hc : ((roundHalfEven (p / 2 ^ (E1 - 23)) : ℤ) : ℚ) ≤
        ((roundHalfEven (q / 2 ^ (E1 - 23)) : ℤ) : ℚ) := by exact_mod_cast this
    exact mul_le_mul_of_nonneg_right hc (le_of_lt hu1)
  · have hE2q : E2 = Int.log 2 q := by
      rw [← hE2]
      apply max_eq_left
      have : -126 ≤ E1 := by rw [← hE1]; exact le_max_right _ _
      by_contra hc
      have : max (Int.log 2 q) (-126) = -126 := max_eq_right (le_of_lt (not_le.mp hc))
      omega
    have hE1p : Int.log 2 p + 1 ≤ E1 + 1 := by
      have : Int.log 2 p ≤ E1 := by rw [← hE1]; exact le_max_left _ _
      omega
    -- upper bound for the rounding of `p`
    have hup : ((roundHalfEven (p / 2 ^ (E1 - 23)) : ℤ) : ℚ) * 2 ^ (E1 - 23) ≤
        (2 : ℚ) ^ (E1 + 1) := by
      have hple : p ≤ (2 : ℚ) ^ (E1 + 1) :=
        le_trans (le_of_lt hp2) (zpow_le_zpow_right₀ (by norm_num) hE1p)
      have hdiv : p / 2 ^ (E1 - 23) ≤ (((2 : ℤ) ^ 24 : ℤ) : ℚ) := by
        rw [div_le_iff₀ hu1]
        rw [two_pow_24_mul]
        exact hple
      have h1 := roundHalfEven_mono hdiv
      rw [roundHalfEven_intCast] at h1
      have hc : ((roundHalfEven (p / 2 ^ (E1 - 23)) : ℤ) : ℚ) ≤ (((2 : ℤ) ^ 24 : ℤ) : ℚ) := by
        exact_mod_cast h1
      have := mul_le_mul_of_nonneg_right hc (le_of_lt hu1)
      rw [two_pow_24_mul] at this
      exact this
    -- lower bound for the rounding of `q`
    have hlow : (2 : ℚ) ^ E2 ≤
        ((roundHalfEven (q / 2 ^ (E2 - 23)) : ℤ) : ℚ) * 2 ^ (E2 - 23) := by
      have h2 := two_pow_23_mul E2
      have hdiv : (((2 : ℤ) ^ 23 : ℤ) : ℚ) ≤ q / 2 ^ (E2 - 23) := by
        rw [le_div_iff₀ hu2, h2, hE2q]
        exact hq1
      have h1 := roundHalfEven_mono hdiv
      rw [roundHalfEven_intCast] at h1
      have hc : (((2 : ℤ) ^ 23 : ℤ) : ℚ) ≤ ((roundHalfEven (q / 2 ^ (E2 - 23)) : ℤ) : ℚ) := by
        exact_mod_cast h1
      have := mul_le_mul_of_nonneg_right hc (le_of_lt hu2)
      rw [h2] at this
      exact this
    have hmid : (2 : ℚ) ^ (E1 + 1) ≤ (2 : ℚ) ^ E2 :=
      zpow_le_zpow_right₀ (by norm_num) (by omega)
    exact le_trans hup (le_trans hmid hlow)

/-- Rounding to binary32 is monotone. -/
theorem roundBinary32_mono : Monotone roundBinary32 := by
  intro p q hpq
  rcases lt_trichotomy p 0 with hp | hp | hp
  · rcases lt_trichotomy q 0 with hq | hq | hq
    · have h := roundBinary32_mono_pos (p := -q) (q := -p) (by linarith) (by linarith)
      rw [roundBinary32_neg, roundBinary32_neg] at h
      linarith
    · subst hq
      rw [roundBinary32_zero]
      have h := roundBinary32_nonneg (q := -p) (by linarith)
      rw [roundBinary32_neg] at h
      linarith
    · have h1 := roundBinary32_nonneg (q := -p) (by linarith)
      rw [roundBinary32_neg] at h1
      have h2 := roundBinary32_nonneg hq
      linarith
  · subst hp
    rw [roundBinary32_zero]
    rcases eq_or_lt_of_le hpq with hq | hq
    · rw [← hq, roundBinary32_zero]
    · exact roundBinary32_nonneg hq
  · exact roundBinary32_mono_pos hp hpq

theorem binary32_mono : Monotone binary32.ofInt := by
  intro a b h
  simp only [binary32]
  exact roundBinary32_mono (by exact_mod_cast h)

theorem ulpBinary32_natCast (m : ℕ) :
    ulpBinary32 (m : ℚ) = 2 ^ ((Nat.log 2 m : ℤ) - 23) := by
  unfold ulpBinary32
  rw [abs_of_nonneg (by positivity : (0 : ℚ) ≤ (m : ℚ)), Int.log_natCast]
  congr 1
  have : (-126 : ℤ) ≤ (Nat.log 2 m : ℤ) := by omega
  rw [max_eq_left this]

/-- Natural numbers up to `2 ^ 24` are binary32 values. -/
theorem roundBinary32_natCast (m : ℕ) (hm : m ≤ 2 ^ 24) : roundBinary32 (m : ℚ) = m := by
  rcases Nat.eq_zero_or_pos m with h0 | hpos
  · subst h0; simp [roundBinary32]
  · have hq : (0 : ℚ) < (m : ℚ) := by exact_mod_cast hpos
    rw [roundBinary32_of_pos hq, ulpBinary32_natCast]
    have hL : Nat.log 2 m ≤ 24 := by
      have h1 : m < 2 ^ 25 := by omega
      have := (Nat.lt_pow_iff_log_lt (b := 2) (by decide) (by omega : m ≠ 0)).mp h1
      omega
    obtain ⟨k, hk⟩ : ∃ k : ℤ, (m : ℚ) / 2 ^ ((Nat.log 2 m : ℤ) - 23) = (k : ℚ) := by
      rcases Nat.lt_or_ge (Nat.log 2 m) 24 with hlt | hge
      · refine ⟨((m * 2 ^ (23 - Nat.log 2 m) : ℕ) : ℤ), ?_⟩
        have he : ((Nat.log 2 m : ℤ) - 23) = -((23 - Nat.log 2 m : ℕ) : ℤ) := by omega
        rw [he, zpow_neg, zpow_natCast]
        push_cast
        field_simp
      · have hL24 : Nat.log 2 m = 24 := by omega
        have hm24 : m = 2 ^ 24 := by
          have := Nat.pow_log_le_self 2 (by omega : m ≠ 0)
          rw [hL24] at this
          omega
        refine ⟨(2 : ℤ) ^ 23, ?_⟩
        rw [hL24, hm24]
        norm_num
    rw [hk, roundHalfEven_intCast, ← hk]
    have hu : (2 : ℚ) ^ ((Nat.log 2 m : ℤ) - 23) ≠ 0 := by positivity
    field_simp

/-- Integers of magnitude up to `2 ^ 24` are binary32 values. -/
theorem roundBinary32_intCast (n : ℤ) (hn : |n| ≤ 2 ^ 24) : roundBinary32 (n : ℚ) = n := by
  rcases le_total 0 n with h0 | h0
  · obtain ⟨m, rfl⟩ := Int.eq_ofNat_of_zero_le h0
    have hm : m ≤ 2 ^ 24 := by
      rw [abs_of_nonneg h0] at hn
      exact_mod_cast hn
    have := roundBinary32_natCast m hm
    exact_mod_cast this
  · obtain ⟨m, hm⟩ := Int.eq_ofNat_of_zero_le (by omega : 0 ≤ -n)
    have hm24 : m ≤ 2 ^ 24 := by
      rw [abs_of_nonpos h0, hm] at hn
      exact_mod_cast hn
    have hn' : n = -(m : ℤ) := by omega
    rw [hn']
    push_cast
    rw [roundBinary32_neg, roundBinary32_natCast m hm24]

theorem binary32_ofInt_exact (n : ℤ) (hn : |n| ≤ 2 ^ 24) : binary32.ofInt n = n := by
  simp only [binary32]
  exact roundBinary32_intCast n hn

/-- The divisor of `avg_no2`, the float of a non-zero `size`, is at least 1. -/
theorem binary32_ofSize_pos (n : ℕ) (hn : n ≠ 0) : 1 ≤ binary32.ofSize n := by
  simp only [binary32]
  have h1 : roundBinary32 ((1 : ℕ) : ℚ) = ((1 : ℕ) : ℚ) := roundBinary32_natCast 1 (by norm_num)
  have hle : ((1 : ℕ) : ℚ) ≤ (n : ℚ) := by
    exact_mod_cast Nat.one_le_iff_ne_zero.mpr hn
  have := roundBinary32_mono hle
  rw [h1] at this
  simpa using this

/-- The rounding of a positive rational whose binade is known. -/
theorem roundBinary32_binade {q : ℚ} (e k : ℤ) (hq : 0 < q) (he : -126 ≤ e)
    (h1 : (2 : ℚ) ^ e ≤ q) (h2 : q < (2 : ℚ) ^ (e + 1))
    (hk : roundHalfEven (q / 2 ^ (e - 23)) = k) :
    roundBinary32 q = (k : ℚ) * 2 ^ (e - 23) := by
  have hlog : Int.log 2 q = e := by
    apply le_antisymm
    · have := (Int.lt_zpow_iff_log_lt (b := 2) (by decide) hq (x := e + 1)).mp
        (by simpa using h2)
      omega
    · exact (Int.zpow_le_iff_le_log (b := 2) (by decide) hq).mp (by simpa using h1)
  rw [roundBinary32_of_pos hq]
  unfold ulpBinary32
  rw [abs_of_pos hq, hlog, max_eq_left he, hk]

theorem roundHalfEven_down {x : ℚ} (f : ℤ) (h1 : (f : ℚ) ≤ x) (h2 : x < f + 1 / 2) :
    roundHalfEven x = f := by
  have hfloor : ⌊x⌋ = f := by
    rw [Int.floor_eq_iff]
    constructor
    · exact h1
    · linarith
  unfold roundHalfEven
  have hfr : Int.fract x < 1 / 2 := by
    unfold Int.fract
    rw [hfloor]
    linarith
  rw [if_pos hfr, hfloor]

theorem roundHalfEven_up {x : ℚ} (f : ℤ) (h1 : (f : ℚ) + 1 / 2 < x) (h2 : x < f + 1) :
    roundHalfEven x = f + 1 := by
  have hfloor : ⌊x⌋ = f := by
    rw [Int.floor_eq_iff]
    constructor
    · linarith
    · exact h2
  unfold roundHalfEven
  have hfr : 1 / 2 < Int.fract x := by
    unfold Int.fract
    rw [hfloor]
    linarith
  rw [if_neg (not_lt.mpr (le_of_lt hfr)), if_pos hfr, hfloor]

/-- The binary32 nearest to 76/5. -/
theorem roundBinary32_76_5 : roundBinary32 (76 / 5) = 15938355 / 1048576 := by
  rw [roundBinary32_binade 3 15938355 (by norm_num) (by norm_num) (by norm_num) (by norm_num)
    (roundHalfEven_down 15938355 (by norm_num) (by norm_num))]
  norm_num

/-- The binary32 nearest to 1/3. -/
theorem roundBinary32_1_3 : roundBinary32 (1 / 3) = 11184811 / 33554432 := by
  rw [roundBinary32_binade (-2) 11184811 (by norm_num) (by norm_num) (by norm_num)
    (by norm_num) (roundHalfEven_up 11184810 (by norm_num) (by norm_num))]
  norm_num

/-- The running float sum is exact while every partial sum and every element
has magnitude at most `2 ^ 24`. -/
theorem foldl_add_binary32 (l : List Int) :
    ∀ a : ℤ, (∀ k, k ≤ l.length → |a + (l.take k).sum| ≤ 2 ^ 24) →
      (∀ x ∈ l, |x| ≤ 2 ^ 24) →
      l.foldl (fun gesamt x => binary32.add gesamt (binary32.ofInt x)) (a : ℚ) =
        ((a + l.sum : ℤ) : ℚ) := by
  induction l with
  | nil => intro a _ _; simp
  | cons x xs ih =>
    intro a hsum hel
    have hx : |x| ≤ 2 ^ 24 := hel x (List.mem_cons_self _ _)
    have hax : |a + x| ≤ 2 ^ 24 := by
      have := hsum 1 (by simp)
      simpa using this
    have hstep : binary32.add (a : ℚ) (binary32.ofInt x) = ((a + x : ℤ) : ℚ) := by
      rw [binary32_ofInt_exact x hx]
      simp only [binary32]
      have := roundBinary32_intCast (a + x) hax
      push_cast at this ⊢
      exact this
    simp only [List.foldl_cons, hstep]
    rw [ih (a + x) (fun k hk => by
        have := hsum (k + 1) (by simp; omega)
        simpa [Int.add_assoc] using this)
      (fun y hy => hel y (List.mem_cons_of_mem _ hy))]
    simp [Int.add_assoc]

/-! ## The loops of the statistics functions -/

/-- The shared loop folds its body over the slots it visits, when those slots
are in the block and `i` stays an `int`. -/
theorem forEachInt_eq {α : Type} (blk : List Int) (body : α → Int → α) :
    ∀ (todo i : Nat) (acc : α), i + todo ≤ INT_MAX → i + todo ≤ blk.length →
      forEachInt (some blk) body todo i acc =
        .ok (((blk.drop i).take todo).foldl body acc) := by
  intro todo
  induction todo with
  | zero => intro i acc _ _; simp [forEachInt]
  | succ n ih =>
    intro i acc hint hlen
    have hi : i < blk.length := by omega
    rw [window_cons blk i n hi]
    unfold forEachInt
    rw [readSlot_of_lt hi, intIncr_ok (by omega : i + 1 ≤ INT_MAX)]
    simp only
    rw [ih (i + 1) (body acc blk[i]) (by omega) (by omega)]
    simp

/-- The shared loop is undefined when it has to take `i` past `INT_MAX`. -/
theorem forEachInt_overflow {α : Type} (blk : List Int) (body : α → Int → α) :
    ∀ (todo i : Nat) (acc : α), i ≤ INT_MAX → INT_MAX < i + todo → i + todo ≤ blk.length →
      forEachInt (some blk) body todo i acc = .error .signedOverflow := by
  intro todo
  induction todo with
  | zero => intro i acc h1 h2 _; omega
  | succ n ih =>
    intro i acc hi hover hlen
    have hlt : i < blk.length := by omega
    unfold forEachInt
    rw [readSlot_of_lt hlt]
    simp only
    by_cases hlast : i + 1 ≤ INT_MAX
    · rw [intIncr_ok hlast]
      exact ih (i + 1) _ hlast (by omega) (by omega)
    · have hov : intIncr i = .error .signedOverflow := by
        unfold intIncr; simp [Nat.lt_of_not_le hlast]
      rw [hov]

theorem window_zero (array : DynamicArray) (blk : List Int) (hdata : array.data = some blk) :
    (blk.drop 0).take array.size = contents array := by
  simp [contents, store, hdata]

theorem foldl_max_float {F : Type} [LinearOrder F] (fm : FloatModel F)
    (hmono : Monotone fm.ofInt) (l : List Int) (m : Int) :
    l.foldl (fun max x => if fm.ofInt x > max then fm.ofInt x else max) (fm.ofInt m) =
      fm.ofInt (l.foldl max m) := by
  induction l generalizing m with
  | nil => rfl
  | cons x xs ih =>
    simp only [List.foldl_cons]
    have hstep : (if fm.ofInt x > fm.ofInt m then fm.ofInt x else fm.ofInt m) =
        fm.ofInt (max m x) := by
      by_cases hgt : fm.ofInt x > fm.ofInt m
      · simp only [hgt, if_true]
        have hxm : m ≤ x := by
          by_contra hc
          exact absurd (hmono (le_of_lt (not_le.mp hc))) (not_le.mpr hgt)
        rw [max_eq_right hxm]
      · simp only [hgt, if_false]
        rcases le_total x m with hxm | hxm
        · rw [max_eq_left hxm]
        · rw [max_eq_right hxm]
          exact le_antisymm (hmono hxm) (not_lt.mp hgt)
    rw [hstep, ih]

theorem foldl_min_float {F : Type} [LinearOrder F] (fm : FloatModel F)
    (hmono : Monotone fm.ofInt) (l : List Int) (m : Int) :
    l.foldl (fun min x => if fm.ofInt x < min then fm.ofInt x else min) (fm.ofInt m) =
      fm.ofInt (l.foldl min m) := by
  induction l generalizing m with
  | nil => rfl
  | cons x xs ih =>
    simp only [List.foldl_cons]
    have hstep : (if fm.ofInt x < fm.ofInt m then fm.ofInt x else fm.ofInt m) =
        fm.ofInt (min m x) := by
      by_cases hlt : fm.ofInt x < fm.ofInt m
      · simp only [hlt, if_true]
        have hxm : x ≤ m := by
          by_contra hc
          exact absurd (hmono (le_of_lt (not_le.mp hc))) (not_le.mpr hlt)
        rw [min_eq_right hxm]
      · simp only [hlt, if_false]
        rcases le_total m x with hxm | hxm
        · rw [min_eq_left hxm]
        · rw [min_eq_right hxm]
          exact le_antisymm (not_lt.mp hlt) (hmono hxm)
    rw [hstep, ih]

theorem foldl_max_spec (l : List Int) (m : Int) :
    m ≤ l.foldl max m ∧ (∀ x ∈ l, x ≤ l.foldl max m) ∧
      (l.foldl max m = m ∨ l.foldl max m ∈ l) := by
  induction l generalizing m with
  | nil => simp
  | cons x xs ih =>
    obtain ⟨h1, h2, h3⟩ := ih (max m x)
    simp only [List.foldl_cons, List.mem_cons, forall_eq_or_imp]
    refine ⟨le_trans (le_max_left _ _) h1, ⟨le_trans (le_max_right _ _) h1, h2⟩, ?_⟩
    rcases h3 with h | h
    · rw [h]
      rcases le_total m x with hmx | hmx
      · exact Or.inr (Or.inl (max_eq_right hmx))
      · exact Or.inl (max_eq_left hmx)
    · exact Or.inr (Or.inr h)

theorem foldl_min_spec (l : List Int) (m : Int) :
    l.foldl min m ≤ m ∧ (∀ x ∈ l, l.foldl min m ≤ x) ∧
      (l.foldl min m = m ∨ l.foldl min m ∈ l) := by
  induction l generalizing m with
  | nil => simp
  | cons x xs ih =>
    obtain ⟨h1, h2, h3⟩ := ih (min m x)
    simp only [List.foldl_cons, List.mem_cons, forall_eq_or_imp]
    refine ⟨le_trans h1 (min_le_left _ _), ⟨le_trans h1 (min_le_right _ _), h2⟩, ?_⟩
    rcases h3 with h | h
    · rw [h]
      rcases le_total m x with hmx | hmx
      · exact Or.inl (min_eq_left hmx)
      · exact Or.inr (Or.inl (min_eq_right hmx))
    · exact Or.inr (Or.inr h)

/-! ## Average -/

theorem avg_no2_eq {F : Type} (fm : FloatModel F) (array : DynamicArray) (blk : List Int)
    (hdata : array.data = some blk) (hstore : array.size ≤ blk.length)
    (hne : array.size ≠ 0) (hint : array.size ≤ INT_MAX) :
    avg_no2 fm (some array) =
      .ok (fm.div ((contents array).foldl (fun gesamt x => fm.add gesamt (fm.ofInt x))
        (fm.ofInt 0)) (fm.ofSize array.size)) := by
  have hloop := forEachInt_eq blk
    (fun gesamt x => fm.add gesamt (fm.ofInt x)) array.size 0
    (fm.ofInt 0) (by omega) (by omega)
  rw [window_zero array blk hdata] at hloop
  unfold avg_no2
  simp only [hne, if_false, hdata, hloop]

/-- The binary32 average when the accumulation is exact: the float nearest to
the arithmetic mean. -/
theorem avg_no2_binary32 (array : DynamicArray) (blk : List Int)
    (hdata : array.data = some blk) (hstore : array.size ≤ blk.length)
    (hne : array.size ≠ 0) (hint : array.size ≤ INT_MAX)
    (hsums : ∀ k, k ≤ (contents array).length → |((contents array).take k).sum| ≤ 2 ^ 24)
    (helems : ∀ x ∈ contents array, |x| ≤ 2 ^ 24) (hsize : array.size ≤ 2 ^ 24) :
    avg_no2 binary32 (some array) =
      .ok (roundBinary32 ((((contents array).sum : Int) : ℚ) / (array.size : ℚ))) := by
  rw [avg_no2_eq binary32 array blk hdata hstore hne hint]
  have h0 : binary32.ofInt 0 = ((0 : ℤ) : ℚ) := binary32_ofInt_exact 0 (by norm_num)
  rw [h0, foldl_add_binary32 (contents array) 0 (fun k hk => by simpa using hsums k hk) helems]
  have hs : binary32.ofSize array.size = (array.size : ℚ) := by
    simp only [binary32]
    exact roundBinary32_natCast array.size hsize
  rw [hs]
  simp [binary32]

theorem max_no2_eq {F : Type} [LinearOrder F] (fm : FloatModel F) (hmono : Monotone fm.ofInt)
    (array : DynamicArray) (blk : List Int) (hdata : array.data = some blk)
    (hstore : array.size ≤ blk.length) (hne : array.size ≠ 0) (hint : array.size ≤ INT_MAX) :
    max_no2 fm (some array) = .ok (fm.ofInt ((contents array).foldl max 0)) := by
  have hloop := forEachInt_eq blk
    (fun max x => if fm.ofInt x > max then fm.ofInt x else max) array.size 0
    (fm.ofInt 0) (by omega) (by omega)
  rw [window_zero array blk hdata, foldl_max_float fm hmono] at hloop
  unfold max_no2
  simp only [hne, if_false, hdata, hloop]

theorem min_no2_eq {F : Type} [LinearOrder F] (fm : FloatModel F) (hmono : Monotone fm.ofInt)
    (array : DynamicArray) (blk : List Int) (hdata : array.data = some blk)
    (hstore : array.size ≤ blk.length) (hne : array.size ≠ 0) (hint : array.size ≤ INT_MAX) :
    min_no2 fm (some array) = .ok (fm.ofInt ((contents array).foldl min 30)) := by
  have hloop := forEachInt_eq blk
    (fun min x => if fm.ofInt x < min then fm.ofInt x else min) array.size 0
    (fm.ofInt 30) (by omega) (by omega)
  rw [window_zero array blk hdata, foldl_min_float fm hmono] at hloop
  unfold min_no2
  simp only [hne, if_false, hdata, hloop]

/-- On a buffer of more than `INT_MAX` elements the loops of `avg_no2`,
`max_no2` and `min_no2` overflow the `int` loop variable. -/
theorem stats_overflow {F : Type} [LinearOrder F] (fm : FloatModel F) (array : DynamicArray)
    (blk : List Int) (hdata : array.data = some blk) (hstore : array.size ≤ blk.length)
    (hbig : INT_MAX < array.size) :
    avg_no2 fm (some array) = .error .signedOverflow ∧
    max_no2 fm (some array) = .error .signedOverflow ∧
    min_no2 fm (some array) = .error .signedOverflow := by
  have hne : array.size ≠ 0 := by omega
  refine ⟨?_, ?_, ?_⟩
  · have h := forEachInt_overflow blk (fun gesamt x => fm.add gesamt (fm.ofInt x))
      array.size 0 (fm.ofInt 0) (Nat.zero_le _) (by omega) (by omega)
    unfold avg_no2
    simp only [hne, if_false, hdata, h]
  · have h := forEachInt_overflow blk
      (fun max x => if fm.ofInt x > max then fm.ofInt x else max)
      array.size 0 (fm.ofInt 0) (Nat.zero_le _) (by omega) (by omega)
    unfold max_no2
    simp only [hne, if_false, hdata, h]
  · have h := forEachInt_overflow blk
      (fun min x => if fm.ofInt x < min then fm.ofInt x else min)
      array.size 0 (fm.ofInt 30) (Nat.zero_le _) (by omega) (by omega)
    unfold min_no2
    simp only [hne, if_false, hdata, h]

/-- C11 (amended). Average, in binary32: `avg_no2` returns 0.0 when
`size == 0`; on a non-empty buffer of at most `INT_MAX` elements (its first
`size` slots in its block) it returns the rounded quotient, by the float of
`size`, of the float sum accumulated over the first `size` elements in index
order, each conversion and addition rounded; when `size`, every element and
every partial sum have magnitude at most `2 ^ 24`, that is the binary32 value
nearest to (sum of the first `size` elements) / `size`.  Slots at index
`≥ size` do not enter the result. -/
theorem C11_average (array : DynamicArray) :
    (array.size = 0 → avg_no2 binary32 (some array) = .ok 0) ∧
    (array.size ≠ 0 → array.size ≤ INT_MAX →
      (∃ blk, array.data = some blk ∧ array.size ≤ blk.length) →
      avg_no2 binary32 (some array) =
        .ok (binary32.div
          ((contents array).foldl (fun gesamt x => binary32.add gesamt (binary32.ofInt x))
            (binary32.ofInt 0))
          (binary32.ofSize array.size)) ∧
      ((∀ k, k ≤ (contents array).length → |((contents array).take k).sum| ≤ 2 ^ 24) →
        (∀ x ∈ contents array, |x| ≤ 2 ^ 24) → array.size ≤ 2 ^ 24 →
        avg_no2 binary32 (some array) =
          .ok (roundBinary32 ((((contents array).sum : Int) : ℚ) / (array.size : ℚ))))) := by
  constructor
  · intro h0
    have hz : binary32.ofInt 0 = 0 := by
      have := binary32_ofInt_exact 0 (by norm_num)
      simpa using this
    simp [avg_no2, h0, hz]
  · rintro hne hint ⟨blk, hdata, hstore⟩
    exact ⟨avg_no2_eq binary32 array blk hdata hstore hne hint,
      fun hsums helems hsize =>
        avg_no2_binary32 array blk hdata hstore hne hint hsums helems hsize⟩

theorem C11_average_witness :
    ((5 : Nat) ≠ 0 ∧ 5 ≤ INT_MAX ∧ (5 : Nat) ≤ 2 ^ 24 ∧
      avg_no2 binary32 (some ⟨some [5, 25, 18, 30, -2, 99, 99, 99], 8, 5⟩) =
        .ok (roundBinary32
          ((((contents ⟨some [5, 25, 18, 30, -2, 99, 99, 99], 8, 5⟩).sum : Int) : ℚ) /
            ((5 : Nat) : ℚ)))) ∧
    roundBinary32
        ((((contents ⟨some [5, 25, 18, 30, -2, 99, 99, 99], 8, 5⟩).sum : Int) : ℚ) /
          ((5 : Nat) : ℚ)) = 15938355 / 1048576 :=
  ⟨⟨by decide, by decide, by decide,
    ((C11_average ⟨some [5, 25, 18, 30, -2, 99, 99, 99], 8, 5⟩).2 (by decide) (by decide)
      ⟨_, rfl, by decide⟩).2 (by decide) (by decide) (by decide)⟩,
    by
      have h : (((contents ⟨some [5, 25, 18, 30, -2, 99, 99, 99], 8, 5⟩).sum : Int) : ℚ) /
          ((5 : Nat) : ℚ) = 76 / 5 := by norm_num [contents, store]
      rw [h, roundBinary32_76_5]⟩

/-- C11 as stated fails.  On the buffer `[1, 0, 0]` the sum 1 is accumulated
exactly, but the quotient by 3 is rounded to binary32: `avg_no2` returns
11184811/33554432, not the arithmetic mean 1/3.  And on a buffer of `2 ^ 31`
elements the loop variable `int i` cannot pass `INT_MAX`, so the call has no
defined result. -/
theorem C11_counterexample :
    avg_no2 binary32 (some ⟨some [1, 0, 0], 3, 3⟩) = .ok (11184811 / 33554432) ∧
    (11184811 / 33554432 : ℚ) ≠ ((([1, 0, 0] : List Int).sum : Int) : ℚ) / ((3 : Nat) : ℚ) ∧
    Valid ⟨some (List.replicate 2147483648 1), 2147483648, 2147483648⟩ ∧
    avg_no2 binary32
        (some ⟨some (List.replicate 2147483648 1), 2147483648, 2147483648⟩) =
      .error .signedOverflow := by
  refine ⟨?_, by norm_num, ⟨Nat.le_refl _, List.length_replicate _ _, by decide⟩,
    (stats_overflow binary32 _ (List.replicate 2147483648 1) rfl
      (Nat.le_of_eq (List.length_replicate _ _).symm) (by decide)).1⟩
  rw [avg_no2_binary32 ⟨some [1, 0, 0], 3, 3⟩ [1, 0, 0] rfl (by decide) (by decide)
    (by decide) (by decide) (by decide) (by decide)]
  have h : ((((contents ⟨some [1, 0, 0], 3, 3⟩).sum : Int) : ℚ) / ((3 : Nat) : ℚ)) = 1 / 3 := by
    norm_num [contents, store]
  simp only at h ⊢
  rw [h, roundBinary32_1_3]

/-! ## Maximum, minimum and the empty input -/

/-- C12 (amended). Maximum, for any float arithmetic whose conversion from
`int` is monotone: `max_no2` returns the float of 0 when `size == 0`; on a
non-empty buffer of at most `INT_MAX` elements it returns the float of
`m = max(0, largest of the first size elements)`.  So `m` is the largest
element whenever some element is `≥ 0`, and `m` is 0 when all are negative. -/
theorem C12_maximum {F : Type} [LinearOrder F] (fm : FloatModel F)
    (hmono : Monotone fm.ofInt) (array : DynamicArray) :
    (array.size = 0 → max_no2 fm (some array) = .ok (fm.ofInt 0)) ∧
    (array.size ≠ 0 → array.size ≤ INT_MAX →
      (∃ blk, array.data = some blk ∧ array.size ≤ blk.length) →
      ∃ m : Int, max_no2 fm (some array) = .ok (fm.ofInt m) ∧
        0 ≤ m ∧ (∀ x ∈ contents array, x ≤ m) ∧ (m = 0 ∨ m ∈ contents array) ∧
        ((∃ x ∈ contents array, 0 ≤ x) → m ∈ contents array) ∧
        ((∀ x ∈ contents array, x < 0) → m = 0)) := by
  constructor
  · intro h0
    simp [max_no2, h0]
  · rintro hne hint ⟨blk, hdata, hstore⟩
    obtain ⟨h1, h2, h3⟩ := foldl_max_spec (contents array) 0
    refine ⟨_, max_no2_eq fm hmono array blk hdata hstore hne hint, h1, h2, h3, ?_, ?_⟩
    · rintro ⟨x, hx, hx0⟩
      rcases h3 with h | h
      · have hxm := h2 x hx
        have : x = 0 := by omega
        rw [h, ← this]; exact hx
      · exact h
    · intro hall
      rcases h3 with h | h
      · exact h
      · have := hall _ h
        omega

theorem C12_maximum_witness :
    (5 : Nat) ≠ 0 ∧ 5 ≤ INT_MAX ∧
    ∃ m : Int, max_no2 binary32 (some ⟨some [5, 25, 18, 30, -2, 99, 99, 99], 8, 5⟩) =
        .ok (binary32.ofInt m) ∧
      0 ≤ m ∧ (∀ x ∈ contents ⟨some [5, 25, 18, 30, -2, 99, 99, 99], 8, 5⟩, x ≤ m) ∧
      (m = 0 ∨ m ∈ contents ⟨some [5, 25, 18, 30, -2, 99, 99, 99], 8, 5⟩) ∧
      ((∃ x ∈ contents ⟨some [5, 25, 18, 30, -2, 99, 99, 99], 8, 5⟩, 0 ≤ x) →
        m ∈ contents ⟨some [5, 25, 18, 30, -2, 99, 99, 99], 8, 5⟩) ∧
      ((∀ x ∈ contents ⟨some [5, 25, 18, 30, -2, 99, 99, 99], 8, 5⟩, x < 0) → m = 0) :=
  ⟨by decide, by decide,
    (C12_maximum binary32 binary32_mono ⟨some [5, 25, 18, 30, -2, 99, 99, 99], 8, 5⟩).2
      (by decide) (by decide) ⟨_, rfl, by decide⟩⟩

/-- C12 as stated fails on a buffer of `2 ^ 31` elements: the loop variable
`int i` of `max_no2` cannot pass `INT_MAX`, so the call has no defined result. -/
theorem C12_counterexample :
    Valid ⟨some (List.replicate 2147483648 7), 2147483648, 2147483648⟩ ∧
    max_no2 binary32
        (some ⟨some (List.replicate 2147483648 7), 2147483648, 2147483648⟩) =
      .error .signedOverflow :=
  ⟨⟨Nat.le_refl _, List.length_replicate _ _, by decide⟩,
    (stats_overflow binary32 _ (List.replicate 2147483648 7) rfl
      (Nat.le_of_eq (List.length_replicate _ _).symm) (by decide)).2.1⟩

/-- C13 (amended). Minimum, for any float arithmetic whose conversion from
`int` is monotone: on a non-empty buffer of at most `INT_MAX` elements
`min_no2` returns the float of `m = min(30, smallest of the first size
elements)`: the running minimum starts at 30, so `m` is the smallest element
when some element is `< 30` and `m` is 30 when every element is `≥ 30`. -/
theorem C13_minimum {F : Type} [LinearOrder F] (fm : FloatModel F)
    (hmono : Monotone fm.ofInt) (array : DynamicArray) (blk : List Int)
    (hdata : array.data = some blk) (hstore : array.size ≤ blk.length)
    (hne : array.size ≠ 0) (hint : array.size ≤ INT_MAX) :
    ∃ m : Int, min_no2 fm (some array) = .ok (fm.ofInt m) ∧
      m ≤ 30 ∧ (∀ x ∈ contents array, m ≤ x) ∧ (m = 30 ∨ m ∈ contents array) ∧
      ((∃ x ∈ contents array, x < 30) → m ∈ contents array) ∧
      ((∀ x ∈ contents array, 30 ≤ x) → m = 30) := by
  obtain ⟨h1, h2, h3⟩ := foldl_min_spec (contents array) 30
  refine ⟨_, min_no2_eq fm hmono array blk hdata hstore hne hint, h1, h2, h3, ?_, ?_⟩
  · rintro ⟨x, hx, hx0⟩
    rcases h3 with h | h
    · have hxm := h2 x hx
      omega
    · exact h
  · intro hall
    rcases h3 with h | h
    · exact h
    · have := hall _ h
      omega

theorem C13_minimum_witness :
    (5 : Nat) ≤ [5, 25, 18, 30, -2, 99, 99, 99].length ∧ (5 : Nat) ≠ 0 ∧ 5 ≤ INT_MAX ∧
    ∃ m : Int, min_no2 binary32 (some ⟨some [5, 25, 18, 30, -2, 99, 99, 99], 8, 5⟩) =
        .ok (binary32.ofInt m) ∧
      m ≤ 30 ∧ (∀ x ∈ contents ⟨some [5, 25, 18, 30, -2, 99, 99, 99], 8, 5⟩, m ≤ x) ∧
      (m = 30 ∨ m ∈ contents ⟨some [5, 25, 18, 30, -2, 99, 99, 99], 8, 5⟩) ∧
      ((∃ x ∈ contents ⟨some [5, 25, 18, 30, -2, 99, 99, 99], 8, 5⟩, x < 30) →
        m ∈ contents ⟨some [5, 25, 18, 30, -2, 99, 99, 99], 8, 5⟩) ∧
      ((∀ x ∈ contents ⟨some [5, 25, 18, 30, -2, 99, 99, 99], 8, 5⟩, 30 ≤ x) → m = 30) :=
  ⟨by decide, by decide, by decide,
    C13_minimum binary32 binary32_mono ⟨some [5, 25, 18, 30, -2, 99, 99, 99], 8, 5⟩
      [5, 25, 18, 30, -2, 99, 99, 99] rfl (by decide) (by decide) (by decide)⟩

/-- C13 as stated fails on a buffer of `2 ^ 31` elements: the loop variable
`int i` of `min_no2` cannot pass `INT_MAX`, so the call has no defined result. -/
theorem C13_counterexample :
    Valid ⟨some (List.replicate 2147483648 3), 2147483648, 2147483648⟩ ∧
    min_no2 binary32
        (some ⟨some (List.replicate 2147483648 3), 2147483648, 2147483648⟩) =
      .error .signedOverflow :=
  ⟨⟨Nat.le_refl _, List.length_replicate _ _, by decide⟩,
    (stats_overflow binary32 _ (List.replicate 2147483648 3) rfl
      (Nat.le_of_eq (List.length_replicate _ _).symm) (by decide)).2.2⟩

/-- C14 (amended). Empty-input law: on a buffer with `size == 0` (and on
`NULL`) `max_no2` and `min_no2` both return the float of 0, without an error;
for `min_no2` that is the value of its early return, not the 30 its running
minimum would start from. -/
theorem C14_empty_input {F : Type} [LinearOrder F] (fm : FloatModel F)
    (array : DynamicArray) (hempty : array.size = 0) :
    max_no2 fm (some array) = .ok (fm.ofInt 0) ∧
    min_no2 fm (some array) = .ok (fm.ofInt 0) ∧
    max_no2 fm none = .ok (fm.ofInt 0) ∧ min_no2 fm none = .ok (fm.ofInt 0) := by
  simp [max_no2, min_no2, hempty]

theorem C14_empty_input_witness :
    (0 : Nat) = 0 ∧
    max_no2 binary32 (some ⟨none, 0, 0⟩) = .ok (binary32.ofInt 0) ∧
    min_no2 binary32 (some ⟨none, 0, 0⟩) = .ok (binary32.ofInt 0) ∧
    max_no2 binary32 none = .ok (binary32.ofInt 0) ∧
    min_no2 binary32 none = .ok (binary32.ofInt 0) :=
  ⟨rfl, C14_empty_input binary32 ⟨none, 0, 0⟩ rfl⟩

/-- C14 as stated fails for `min_no2`: on the empty buffer it returns 0, which
is not the sentinel 30. -/
theorem C14_counterexample :
    dynamic_array_size (dynamic_array_create (some 0) none 0) = 0 ∧
    min_no2 binary32 (dynamic_array_create (some 0) none 0) = .ok 0 ∧
    min_no2 binary32 (dynamic_array_create (some 0) none 0) ≠ .ok 30 := by
  have hz : binary32.ofInt 0 = 0 := by
    have := binary32_ofInt_exact 0 (by norm_num)
    simpa using this
  refine ⟨by decide, ?_, ?_⟩
  · simp [min_no2, dynamic_array_create, hz]
  · simp [min_no2, dynamic_array_create, hz]

/-! ## End-to-end example -/

/-- C15 (amended). End-to-end example in binary32, whatever the granted
allocations leave in fresh memory: after `dynamic_array_create(0)` and the
appends of 5, 25, 18, 30, -2 (each returning 1) `avg_no2` yields
15938355/1048576 = 15.19999980926513671875, the binary32 value nearest to
76/5 = 15.2; `max_no2` yields 30, `min_no2` yields -2, and `detect_crit_no2`
yields a buffer of size 2 with contents `[25, 30]`. -/
theorem C15_end_to_end (structJunk j1 j2 j3 j4 j5 critStruct critStore : Int)
    (storeReply : Reply) :
    ∃ array crit,
      appendAll [some j1, some j2, some j3, some j4, some j5]
          (dynamic_array_create (some structJunk) storeReply 0) [5, 25, 18, 30, -2] =
        .ok ([1, 1, 1, 1, 1], some array) ∧
      avg_no2 binary32 (some array) = .ok (15938355 / 1048576) ∧
      (15938355 / 1048576 : ℚ) = roundBinary32 (76 / 5) ∧
      (15938355 / 1048576 : ℚ) = 15.19999980926513671875 ∧
      max_no2 binary32 (some array) = .ok 30 ∧
      min_no2 binary32 (some array) = .ok (-2) ∧
      detect_crit_no2 (some critStruct) (some critStore) (some array) = .ok (some crit) ∧
      dynamic_array_size (some crit) = 2 ∧ contents crit = [25, 30] := by
  have hcont : contents ⟨some [5, 25, 18, 30, -2, j5, j5, j5], 8, 5⟩ = [5, 25, 18, 30, -2] := by
    simp [contents, store]
  refine ⟨⟨some [5, 25, 18, 30, -2, j5, j5, j5], 8, 5⟩, ⟨some [25, 30], 2, 2⟩,
    ?_, ?_, roundBinary32_76_5.symm, by norm_num, ?_, ?_, ?_, rfl, rfl⟩
  · simp [appendAll, dynamic_array_append, dynamic_array_create, resize, realloc, storeAtEnd,
      writeSlot, wrapSize, SIZE_MAX, sizeofInt]
  · rw [avg_no2_binary32 _ [5, 25, 18, 30, -2, j5, j5, j5] rfl
      (by show (5 : Nat) ≤ 8; decide) (by show (5 : Nat) ≠ 0; decide)
      (by show (5 : Nat) ≤ INT_MAX; decide)
      (by rw [hcont]; decide) (by rw [hcont]; decide) (by show (5 : Nat) ≤ 2 ^ 24; decide)]
    rw [hcont]
    have h : ((([5, 25, 18, 30, -2] : List Int).sum : Int) : ℚ) / ((5 : Nat) : ℚ) = 76 / 5 := by
      norm_num
    simp only at h ⊢
    rw [h, roundBinary32_76_5]
  · rw [max_no2_eq binary32 binary32_mono _ [5, 25, 18, 30, -2, j5, j5, j5] rfl
      (by show (5 : Nat) ≤ 8; decide) (by show (5 : Nat) ≠ 0; decide)
      (by show (5 : Nat) ≤ INT_MAX; decide), hcont]
    have h30 : binary32.ofInt 30 = 30 := by
      have := binary32_ofInt_exact 30 (by norm_num)
      simpa using this
    simpa using h30
  · rw [min_no2_eq binary32 binary32_mono _ [5, 25, 18, 30, -2, j5, j5, j5] rfl
      (by show (5 : Nat) ≤ 8; decide) (by show (5 : Nat) ≠ 0; decide)
      (by show (5 : Nat) ≤ INT_MAX; decide), hcont]
    have h2 : binary32.ofInt (-2) = -2 := by
      have := binary32_ofInt_exact (-2) (by norm_num)
      simpa using this
    simpa using h2
  · simp [detect_crit_no2, countCrit, fillCrit, readSlot, writeSlot, intIncr, INT_MAX, resize,
      realloc, wrapSize, SIZE_MAX, sizeofInt]

/-- C15 as stated fails for the average: after the five appends `avg_no2`
returns 15938355/1048576, the binary32 value next to 15.2, which is not
76/5. -/
theorem C15_counterexample :
    appendAll [some 0, some 0, some 0, some 0, some 0]
        (dynamic_array_create (some 0) none 0) [5, 25, 18, 30, -2] =
      .ok ([1, 1, 1, 1, 1], some ⟨some [5, 25, 18, 30, -2, 0, 0, 0], 8, 5⟩) ∧
    avg_no2 binary32 (some ⟨some [5, 25, 18, 30, -2, 0, 0, 0], 8, 5⟩) =
      .ok (15938355 / 1048576) ∧
    avg_no2 binary32 (some ⟨some [5, 25, 18, 30, -2, 0, 0, 0], 8, 5⟩) ≠ .ok (76 / 5) := by
  have havg : avg_no2 binary32 (some ⟨some [5, 25, 18, 30, -2, 0, 0, 0], 8, 5⟩) =
      .ok (15938355 / 1048576) := by
    rw [avg_no2_binary32 ⟨some [5, 25, 18, 30, -2, 0, 0, 0], 8, 5⟩
      [5, 25, 18, 30, -2, 0, 0, 0] rfl (by decide) (by decide) (by decide) (by decide)
      (by decide) (by decide)]
    have h : ((((contents ⟨some [5, 25, 18, 30, -2, 0, 0, 0], 8, 5⟩).sum : Int) : ℚ) /
        ((5 : Nat) : ℚ)) = 76 / 5 := by
      norm_num [contents, store]
    simp only at h ⊢
    rw [h, roundBinary32_76_5]
  refine ⟨by decide, havg, ?_⟩
  rw [havg]
  intro h
  simp only [Except.ok.injEq] at h
  norm_num at h

/-! ## The loader loop -/

end DynArr
